import Mathlib

/-!
NanoSSL adapter for GoAhead (nanossl.c): shallow embedding

The C functions of `nanossl.c` are embedded as state-passing functions over a
`World`: the fields of `Webs` and `WebsSocket` the module touches, `errno`, an
abstract environment state for the TLS engine and the socket layer, the
chronological list of calls made into that environment, and the log.

Conventions.
* C `int`, `sbyte4`: an `Int`; every value received from the environment is
  passed through `toInt32`, every narrowing cast is a `toInt32`.
* C `ssize`: an `Int` in `ssizeBits` bits; arithmetic on it is wrapped with
  `wrapSigned`. The width is a parameter (the typedef is not in this file).
* Flag words: the 32-bit pattern as a `Nat`.
* Constants of headers that are not part of this file are fields of `Defs`.
-/

namespace NanoSSL

/-! ## Machine integers -/

/-- Value of an integer reinterpreted as a signed twos-complement number of `bits` bits. -/
def wrapSigned (bits : Nat) (x : Int) : Int :=
  (x + 2 ^ (bits - 1)) % 2 ^ bits - 2 ^ (bits - 1)

/-- Cast to a 32-bit signed integer (`int`, `sbyte4`). -/
def toInt32 (x : Int) : Int :=
  (x + 2147483648) % 4294967296 - 2147483648

/-- Cast to a 32-bit unsigned integer (`ubyte4`). -/
def toUInt32 (x : Nat) : Nat :=
  x % 4294967296

/-- Bitwise complement of a 32-bit flag word (the C operator `~`). -/
def not32 (m : Nat) : Nat :=
  4294967295 ^^^ m

/-! ## Constants and build settings taken from other headers -/

/-- Constants, macros and type widths that `nanossl.c` uses and other headers define. -/
structure Defs where
  ssizeBits : Nat
  SOCKET_EOF : Nat
  SOCKET_HANDSHAKING : Nat
  SOCKET_READABLE : Nat
  EPROTO : Int
  ERR_TCP_READ_ERROR : Int
  ERR_TCP_SOCKET_CLOSED : Int
  ERR_SSL_UNKNOWN_CERTIFICATE_AUTHORITY : Int
  ERR_SSL_NO_CIPHER_MATCH : Int
  ERR_SSL_PROTOCOL_PROCESS_CERTIFICATE : Int
  ERR_SSL_NO_SELF_SIGNED_CERTIFICATES : Int
  ERR_SSL_CERT_VALIDATION_FAILED : Int
  SSL_FLAG_REQUIRE_MUTUAL_AUTH : Nat
  SSL_FLAG_NO_MUTUAL_AUTH_REQUEST : Nat
  ME_GOAHEAD_VERIFY_PEER : Bool
  ME_GOAHEAD_CERTIFICATE : String
  ME_GOAHEAD_KEY : String
  ME_DEBUG : Bool

/-! ## Data model -/

/-- Per socket state (`struct Nano`). -/
structure Nano where
  fd : Int
  handle : Int
  connected : Int
deriving DecidableEq

/-- One call made by the module into the TLS engine, the socket layer or the allocator,
with the arguments passed and the values received. -/
inductive Call where
  | walloc (ok : Bool)
  | wfree
  | acceptConnection (sock : Int) (rc : Int)
  | closeConnection (handle : Int)
  | getSessionFlags (handle : Int) (flags : Nat)
  | setSessionFlags (handle : Int) (flags : Nat)
  | negotiate (handle : Int) (rc : Int)
  | recv (handle : Int) (buf : Int) (len : Int) (rc : Int) (nbytes : Int)
  | recvPending (handle : Int) (count : Int)
  | send (handle : Int) (buf : Int) (len : Int) (rc : Int)
  | sendPending (handle : Int) (count : Int)
  | hiddenData (sid : Int) (count : Int) (dir : Nat)
  | reservice (sid : Int)
deriving DecidableEq

/-- One `logmsg` call: level, format string, integer arguments. -/
structure LogMsg where
  level : Nat
  fmt : String
  args : List Int
deriving DecidableEq

/-- The TLS engine, the socket layer and the allocator, as transitions of an abstract
environment state. Out-parameters are returned next to the status. -/
structure Engine (σ : Type) where
  walloc : σ → σ × Bool
  wfree : σ → σ
  socketGetHandle : σ → Int → Int
  socketHiddenData : σ → Int → Int → Nat → σ
  socketReservice : σ → Int → σ
  SSL_acceptConnection : σ → Int → σ × Int
  SSL_closeConnection : σ → Int → σ
  SSL_getSessionFlags : σ → Int → σ × Nat
  SSL_setSessionFlags : σ → Int → Nat → σ
  SSL_negotiateConnection : σ → Int → σ × Int
  SSL_recv : σ → Int → Int → Int → σ × Int × Int
  SSL_recvPending : σ → Int → σ × Int
  SSL_send : σ → Int → Int → Int → σ × Int
  SSL_sendPending : σ → Int → σ × Int

/-- The part of the program state the module reads and writes for one connection `wp`:
`ssl` is `wp->ssl` (`none` is the null pointer), `wpFlags` is `wp->flags`, `spFlags` is
`socketPtr(wp->sid)->flags`. -/
structure World (σ : Type) where
  env : σ
  ssl : Option Nano
  sid : Int
  wpFlags : Nat
  spFlags : Nat
  errno : Int
  trace : List Call
  log : List LogMsg

/-- Ways an embedded function can fail to return a value. -/
inductive Fault where
  | nullSession
  | outOfFuel
deriving DecidableEq

/-! ## sslFree, sslUpgrade -/

/-- The function `sslFree`. -/
def sslFree {σ : Type} (E : Engine σ) (w : World σ) : World σ :=
  match w.ssl with
  | none => w
  | some np =>
    let w1 : World σ :=
      if np.handle ≠ 0 then
        { w with env := E.SSL_closeConnection w.env np.handle,
                 trace := w.trace ++ [Call.closeConnection np.handle] }
      else w
    { w1 with env := E.wfree w1.env, trace := w1.trace ++ [Call.wfree], ssl := none }

/-- The function `sslUpgrade`. -/
def sslUpgrade {σ : Type} (E : Engine σ) (w : World σ) : World σ × Int :=
  let a := E.walloc w.env
  let w1 : World σ := { w with env := a.1, trace := w.trace ++ [Call.walloc a.2] }
  if a.2 = false then (w1, -1)
  else
    let sock := E.socketGetHandle w1.env w1.sid
    let r := E.SSL_acceptConnection w1.env sock
    let handle := toInt32 r.2
    let w2 : World σ :=
      { w1 with env := r.1, trace := w1.trace ++ [Call.acceptConnection sock handle],
                ssl := some { fd := 0, handle := handle, connected := 0 } }
    if handle < 0 then (w2, -1) else (w2, 0)

/-! ## nanoHandshake -/

/-- The summary message `nanoHandshake` logs for a negative negotiation result. -/
def handshakeSummary (D : Defs) (rc : Int) : List LogMsg :=
  if rc = D.ERR_SSL_UNKNOWN_CERTIFICATE_AUTHORITY then [⟨3, "Unknown certificate authority", []⟩]
  else if rc = D.ERR_SSL_NO_CIPHER_MATCH then [⟨3, "No cipher match", []⟩]
  else if rc = D.ERR_SSL_PROTOCOL_PROCESS_CERTIFICATE then [⟨3, "Bad certificate", []⟩]
  else if rc = D.ERR_SSL_NO_SELF_SIGNED_CERTIFICATES then [⟨3, "Self-signed certificate", []⟩]
  else if rc = D.ERR_SSL_CERT_VALIDATION_FAILED then [⟨3, "Certificate does not validate", []⟩]
  else if rc = D.ERR_TCP_SOCKET_CLOSED then [⟨3, "Peer closed connection", []⟩]
  else []

/-- World in which `nanoHandshake` reaches its `while` loop: the handshaking marker is
set in `wp->flags` and the session flags have been read and written back. -/
def handshakeSetup {σ : Type} (E : Engine σ) (D : Defs) (w : World σ) (np : Nano) : World σ :=
  let g := E.SSL_getSessionFlags w.env np.handle
  let flags0 := toUInt32 g.2
  let flags :=
    if D.ME_GOAHEAD_VERIFY_PEER then toUInt32 (flags0 ||| D.SSL_FLAG_REQUIRE_MUTUAL_AUTH)
    else toUInt32 (flags0 ||| D.SSL_FLAG_NO_MUTUAL_AUTH_REQUEST)
  { w with wpFlags := w.wpFlags ||| D.SOCKET_HANDSHAKING,
           env := E.SSL_setSessionFlags g.1 np.handle flags,
           trace := w.trace ++ [Call.getSessionFlags np.handle flags0,
                                Call.setSessionFlags np.handle flags] }

/-- The function `nanoHandshake`, for the session `np = wp->ssl`.
Returns -1 on errors and 1 if successful. -/
def nanoHandshake {σ : Type} (E : Engine σ) (D : Defs) (w : World σ) (np : Nano) :
    World σ × Int :=
  let w1 := handshakeSetup E D w np
  let n := E.SSL_negotiateConnection w1.env np.handle
  let rc : Int := if np.connected = 0 then toInt32 n.2 else 0
  let w2 : World σ :=
    if np.connected = 0 then
      { w1 with env := n.1, trace := w1.trace ++ [Call.negotiate np.handle rc],
                ssl := if rc < 0 then w1.ssl else some { np with connected := 1 } }
    else w1
  let w3 : World σ := { w2 with wpFlags := w2.wpFlags &&& not32 D.SOCKET_HANDSHAKING }
  if rc < 0 then
    ({ w3 with log := w3.log ++ handshakeSummary D rc ++
                 [⟨4, "NanoSSL: Cannot handshake: error %d", [rc]⟩],
               spFlags := w3.spFlags ||| D.SOCKET_EOF,
               errno := D.EPROTO }, -1)
  else (w3, 1)

/-! ## sslRead -/

/-- The body of `sslRead` after the handshake test: one `SSL_recv`, then the pending query. -/
def sslReadConnected {σ : Type} (E : Engine σ) (D : Defs) (w : World σ) (handle : Int)
    (buf len : Int) : World σ × Int :=
  let r := E.SSL_recv w.env handle buf (toInt32 len)
  let rc := toInt32 r.2.1
  let nbytes := toInt32 r.2.2
  let w1 : World σ :=
    { w with env := r.1, trace := w.trace ++ [Call.recv handle buf (toInt32 len) rc nbytes],
             log := w.log ++ [⟨5, "NanoSSL: ssl_read %d", [rc]⟩] }
  if rc < 0 then
    if rc ≠ D.ERR_TCP_READ_ERROR then
      ({ w1 with spFlags := w1.spFlags ||| D.SOCKET_EOF }, -1)
    else (w1, -1)
  else
    let p := E.SSL_recvPending w1.env handle
    let count := toInt32 p.2
    let w2 : World σ := { w1 with env := p.1, trace := w1.trace ++ [Call.recvPending handle count] }
    if count > 0 then
      ({ w2 with env := E.socketHiddenData w2.env w2.sid count D.SOCKET_READABLE,
                 trace := w2.trace ++ [Call.hiddenData w2.sid count D.SOCKET_READABLE] }, nbytes)
    else (w2, nbytes)

/-- The function `sslRead`. Dereferencing a null `wp->ssl` is the fault `nullSession`. -/
def sslRead {σ : Type} (E : Engine σ) (D : Defs) (w : World σ) (buf len : Int) :
    Except Fault (World σ × Int) :=
  match w.ssl with
  | none => .error Fault.nullSession
  | some np =>
    if np.connected = 0 then
      let h := nanoHandshake E D w np
      if h.2 ≤ 0 then .ok (h.1, h.2)
      else .ok (sslReadConnected E D h.1 np.handle buf len)
    else .ok (sslReadConnected E D w np.handle buf len)

/-! ## sslWrite -/

/-- How the `do ... while (len > 0)` loop of `sslWrite` is left. -/
inductive LoopExit where
  | failed
  | drained (totalWritten : Int)
deriving DecidableEq

/-- The `do ... while (len > 0)` loop of `sslWrite`; one unit of fuel per iteration. -/
def sslWriteLoop {σ : Type} (E : Engine σ) (D : Defs) (handle : Int) :
    Nat → World σ → Int → Int → Int → Except Fault (World σ × LoopExit)
  | 0, _, _, _, _ => .error Fault.outOfFuel
  | fuel + 1, w, buf, len, totalWritten =>
    let r := E.SSL_send w.env handle buf (toInt32 len)
    let sent := toInt32 r.2
    let w1 : World σ :=
      { w with env := r.1, trace := w.trace ++ [Call.send handle buf (toInt32 len) sent],
               log := w.log ++ [⟨7, "NanoSSL: written %d, requested len %d", [sent, len]⟩] }
    if sent ≤ 0 then
      .ok ({ w1 with log := w1.log ++ [⟨0, "NanoSSL: SSL_send failed sent %d", [sent]⟩],
                     spFlags := w1.spFlags ||| D.SOCKET_EOF }, LoopExit.failed)
    else
      let totalWritten1 := wrapSigned D.ssizeBits (totalWritten + sent)
      let buf1 := buf + sent
      let len1 := wrapSigned D.ssizeBits (len - sent)
      let w2 : World σ :=
        { w1 with log := w1.log ++
            [⟨7, "NanoSSL: write: len %d, written %d, total %d", [len1, sent, totalWritten1]⟩] }
      if len1 > 0 then sslWriteLoop E D handle fuel w2 buf1 len1 totalWritten1
      else .ok (w2, LoopExit.drained totalWritten1)

/-- The body of `sslWrite` after the handshake test. The loop gets `len` units of fuel:
every iteration that continues lowers `len` by at least one. -/
def sslWriteConnected {σ : Type} (E : Engine σ) (D : Defs) (w : World σ) (handle : Int)
    (buf len : Int) : Except Fault (World σ × Int) :=
  match sslWriteLoop E D handle len.toNat w buf len 0 with
  | .error f => .error f
  | .ok (w1, LoopExit.failed) => .ok (w1, -1)
  | .ok (w1, LoopExit.drained totalWritten) =>
    let p := E.SSL_sendPending w1.env handle
    let count := toInt32 p.2
    let w2 : World σ := { w1 with env := p.1, trace := w1.trace ++ [Call.sendPending handle count] }
    if count > 0 then
      .ok ({ w2 with env := E.socketReservice w2.env w2.sid,
                     trace := w2.trace ++ [Call.reservice w2.sid] }, totalWritten)
    else .ok (w2, totalWritten)

/-- The function `sslWrite`. Dereferencing a null `wp->ssl` is the fault `nullSession`. -/
def sslWrite {σ : Type} (E : Engine σ) (D : Defs) (w : World σ) (buf len : Int) :
    Except Fault (World σ × Int) :=
  if len ≤ 0 then .ok (w, -1)
  else
    match w.ssl with
    | none => .error Fault.nullSession
    | some np =>
      if np.connected = 0 then
        let h := nanoHandshake E D w np
        if h.2 ≤ 0 then .ok (h.1, h.2)
        else sslWriteConnected E D h.1 np.handle buf len
      else sslWriteConnected E D w np.handle buf len

/-! ## sslOpen -/

/-- Status each engine and file primitive called by `sslOpen` answers with. -/
structure OpenEnv where
  MOCANA_initMocana : Int
  SSL_init : Int
  MOCANA_readFile_certificate : Int
  CA_MGMT_decodeCertificate : Int
  MOCANA_readFile_key : Int
  CA_MGMT_convertKeyPEM : Int
  SSL_initServerCert : Int

/-- One primitive called by `sslOpen`. -/
inductive OpenCall where
  | MOCANA_initMocana
  | MOCANA_initLog
  | SSL_init
  | MOCANA_readFile (path : String)
  | CA_MGMT_decodeCertificate
  | CA_MGMT_convertKeyPEM
  | CA_MGMT_freeCertificate_tmp
  | CA_MGMT_freeCertificate_cert
  | MOCANA_freeReadFile
  | SSL_initServerCert
  | SSL_sslSettings
deriving DecidableEq

/-- What a run of `sslOpen` leaves behind: the value returned, the primitives called in
order, the `error` messages, and the hello and receive timeouts once they are set. -/
structure OpenResult where
  rc : Int
  calls : List OpenCall
  errors : List (String × List String)
  timeouts : Option (Nat × Nat)
deriving DecidableEq

/-- The macro `SSL_HELLO_TIMEOUT`. -/
def SSL_HELLO_TIMEOUT (D : Defs) : Nat := if D.ME_DEBUG then 15000000 else 15000

/-- The macro `SSL_RECV_TIMEOUT`. -/
def SSL_RECV_TIMEOUT (D : Defs) : Nat := if D.ME_DEBUG then 30000000 else 300000

/-- The tail of `sslOpen` from the call of `SSL_initServerCert` on. -/
def sslOpenServerCert (D : Defs) (o : OpenEnv) (calls : List OpenCall)
    (errors : List (String × List String)) : OpenResult :=
  if toInt32 o.SSL_initServerCert ≠ 0 then
    ⟨-1, calls ++ [OpenCall.SSL_initServerCert],
      errors ++ [("SSL_initServerCert failed", [])], none⟩
  else
    ⟨0, calls ++ [OpenCall.SSL_initServerCert, OpenCall.SSL_sslSettings], errors,
      some (SSL_HELLO_TIMEOUT D, SSL_RECV_TIMEOUT D)⟩

/-- The tail of `sslOpen` from the test `if (key)` on. -/
def sslOpenKey (D : Defs) (o : OpenEnv) (calls : List OpenCall)
    (errors : List (String × List String)) : OpenResult :=
  if D.ME_GOAHEAD_KEY ≠ "" then
    let key := D.ME_GOAHEAD_KEY
    let calls1 := calls ++ [OpenCall.MOCANA_readFile key]
    let calls2 :=
      if toInt32 o.MOCANA_readFile_key < 0 then calls1 ++ [OpenCall.CA_MGMT_freeCertificate_cert]
      else calls1
    let errors2 :=
      if toInt32 o.MOCANA_readFile_key < 0 then
        errors ++ [("NanoSSL: Unable to read key file %s", [key])]
      else errors
    if toInt32 o.CA_MGMT_convertKeyPEM < 0 then
      ⟨-1, calls2 ++ [OpenCall.CA_MGMT_convertKeyPEM, OpenCall.CA_MGMT_freeCertificate_tmp],
        errors2 ++ [("NanoSSL: Unable to decode PEM key file %s", [key])], none⟩
    else
      sslOpenServerCert D o
        (calls2 ++ [OpenCall.CA_MGMT_convertKeyPEM, OpenCall.MOCANA_freeReadFile]) errors2
  else sslOpenServerCert D o calls errors

/-- The function `sslOpen` (the block under `#if FUTURE` is not compiled). -/
def sslOpen (D : Defs) (o : OpenEnv) : OpenResult :=
  if toInt32 o.MOCANA_initMocana < 0 then
    ⟨-1, [OpenCall.MOCANA_initMocana], [("NanoSSL initialization failed", [])], none⟩
  else if toInt32 o.SSL_init < 0 then
    ⟨-1, [OpenCall.MOCANA_initMocana, OpenCall.MOCANA_initLog, OpenCall.SSL_init],
      [("SSL_init failed", [])], none⟩
  else
    let calls := [OpenCall.MOCANA_initMocana, OpenCall.MOCANA_initLog, OpenCall.SSL_init]
    if D.ME_GOAHEAD_CERTIFICATE ≠ "" then
      let certificate := D.ME_GOAHEAD_CERTIFICATE
      if toInt32 o.MOCANA_readFile_certificate < 0 then
        ⟨-1, calls ++ [OpenCall.MOCANA_readFile certificate, OpenCall.CA_MGMT_freeCertificate_tmp],
          [("NanoSSL: Unable to read certificate %s", [certificate])], none⟩
      else if toInt32 o.CA_MGMT_decodeCertificate < 0 then
        ⟨-1, calls ++ [OpenCall.MOCANA_readFile certificate, OpenCall.CA_MGMT_decodeCertificate,
            OpenCall.CA_MGMT_freeCertificate_tmp],
          [("NanoSSL: Unable to decode PEM certificate %s", [certificate])], none⟩
      else
        sslOpenKey D o
          (calls ++ [OpenCall.MOCANA_readFile certificate, OpenCall.CA_MGMT_decodeCertificate,
            OpenCall.MOCANA_freeReadFile]) []
    else sslOpenKey D o calls []

/-! ## Sequences of calls on one session -/

/-- One call of the read or write entry point. -/
inductive Op where
  | read (buf : Int) (len : Int)
  | write (buf : Int) (len : Int)
deriving DecidableEq

/-- Run one entry point. -/
def step {σ : Type} (E : Engine σ) (D : Defs) (w : World σ) : Op → Except Fault (World σ × Int)
  | Op.read buf len => sslRead E D w buf len
  | Op.write buf len => sslWrite E D w buf len

/-- A call that gets past the argument check of its entry point: `sslWrite` returns at
once unless `len > 0`; `sslRead` has no such check. -/
def Op.admitted : Op → Prop
  | Op.read _ _ => True
  | Op.write _ len => 0 < len

instance (op : Op) : Decidable op.admitted := by
  cases op <;> unfold Op.admitted <;> infer_instance

/-- The length passed to `sslWrite` is a value of type `ssize`. -/
def Op.inRange (D : Defs) : Op → Prop
  | Op.read _ _ => True
  | Op.write _ len => len < 2 ^ (D.ssizeBits - 1)

/-- Run the entry points one after the other; the values returned are collected in order. -/
def run {σ : Type} (E : Engine σ) (D : Defs) :
    List Op → World σ → Except Fault (World σ × List Int)
  | [], w => .ok (w, [])
  | op :: ops, w =>
    match step E D w op with
    | .error f => .error f
    | .ok (w1, r) =>
      match run E D ops w1 with
      | .error f => .error f
      | .ok (w2, rs) => .ok (w2, r :: rs)

/-! ## Observations on the call list -/

/-- Whether a call is an `SSL_negotiateConnection` call. -/
def Call.isNegotiate : Call → Bool
  | Call.negotiate _ _ => true
  | _ => false

/-- Whether a call is an `SSL_negotiateConnection` call that returned a non-negative
status. -/
def Call.isNegotiateSuccess : Call → Bool
  | Call.negotiate _ rc => decide (0 ≤ rc)
  | _ => false

/-- Number of `SSL_negotiateConnection` calls in a call list. -/
def negotiateCalls (t : List Call) : Nat :=
  t.countP Call.isNegotiate

/-- Number of `SSL_negotiateConnection` calls that returned a non-negative status. -/
def negotiateSuccesses (t : List Call) : Nat :=
  t.countP Call.isNegotiateSuccess

/-- Number of calls of a sequence that get past the argument check of their entry point. -/
def admittedCount (ops : List Op) : Nat :=
  ops.countP fun op => decide op.admitted

/-- Number of `SSL_closeConnection` calls in a call list. -/
def closeCalls (t : List Call) : Nat :=
  t.countP fun c => match c with
    | Call.closeConnection _ => true
    | _ => false

/-- The `SSL_send` calls of a call list, in order: buffer address, length offered,
count accepted. -/
def sendCalls : List Call → List (Int × Int × Int)
  | [] => []
  | Call.send _ buf len rc :: t => (buf, len, rc) :: sendCalls t
  | _ :: t => sendCalls t

/-- The counts accepted by the `SSL_send` calls of a call list, in order. -/
def acceptedCounts (t : List Call) : List Int :=
  (sendCalls t).map fun c => c.2.2

/-- The `SSL_recv` calls of a call list, in order: handle, buffer address, length
offered, status, byte count reported. -/
def recvCalls : List Call → List (Int × Int × Int × Int × Int)
  | [] => []
  | Call.recv h buf len rc nbytes :: t => (h, buf, len, rc, nbytes) :: recvCalls t
  | _ :: t => recvCalls t

/-- The status `nanoHandshake` receives from `SSL_negotiateConnection` when it is entered
in world `w` for the unconnected session `np`. -/
def negotiateStatus {σ : Type} (E : Engine σ) (D : Defs) (w : World σ) (np : Nano) : Int :=
  toInt32 (E.SSL_negotiateConnection (handshakeSetup E D w np).env np.handle).2

/-- Whether a call is one of the data-path calls: `SSL_recv`, `SSL_send`, the two pending
queries, the hidden-data signal or the reservice signal. -/
def Call.isTransfer : Call → Bool
  | Call.recv _ _ _ _ _ => true
  | Call.recvPending _ _ => true
  | Call.send _ _ _ _ => true
  | Call.sendPending _ _ => true
  | Call.hiddenData _ _ _ => true
  | Call.reservice _ => true
  | _ => false

/-- The `SSL_send` calls the write loop makes when the successive accepted counts are
`rcs`: each is offered the current buffer address and the remaining length. -/
def sendEvents (handle : Int) : Int → Int → List Int → List Call
  | _, _, [] => []
  | buf, len, rc :: rest =>
    Call.send handle buf (toInt32 len) rc :: sendEvents handle (buf + rc) (len - rc) rest

/-- The lines the write loop logs when the successive accepted counts are `rcs`, entered
with remaining length `len` and running total `total`. -/
def loopLog (bits : Nat) : Int → Int → List Int → List LogMsg
  | _, _, [] => []
  | len, total, rc :: rest =>
    ⟨7, "NanoSSL: written %d, requested len %d", [rc, len]⟩ ::
      (if rc ≤ 0 then [⟨0, "NanoSSL: SSL_send failed sent %d", [rc]⟩]
       else
        ⟨7, "NanoSSL: write: len %d, written %d, total %d",
          [len - rc, rc, wrapSigned bits (total + rc)]⟩ ::
          loopLog bits (len - rc) (wrapSigned bits (total + rc)) rest)

/-- The progress lines of a log, in order: remaining length, count accepted and running
total, as the write loop logs them at the end of an iteration. -/
def progressLog : List LogMsg → List (Int × Int × Int)
  | [] => []
  | m :: t =>
    if m.fmt = "NanoSSL: write: len %d, written %d, total %d" then
      match m.args with
      | [len, sent, total] => (len, sent, total) :: progressLog t
      | _ => progressLog t
    else progressLog t

/-- Every count of `rcs` is positive and leaves a positive remaining length, so the write
loop goes round again after each of them. -/
def Continues : Int → List Int → Prop
  | _, [] => True
  | len, rc :: rest => 0 < rc ∧ rc ≤ 2147483647 ∧ 0 < len - rc ∧ Continues (len - rc) rest

/-! ## Concrete environments -/

/-- Constants as in the GoAhead and NanoSSL headers, for a 64-bit build without peer
verification. -/
def sampleDefs : Defs where
  ssizeBits := 64
  SOCKET_EOF := 1
  SOCKET_HANDSHAKING := 256
  SOCKET_READABLE := 2
  EPROTO := 71
  ERR_TCP_READ_ERROR := -5803
  ERR_TCP_SOCKET_CLOSED := -5806
  ERR_SSL_UNKNOWN_CERTIFICATE_AUTHORITY := -6005
  ERR_SSL_NO_CIPHER_MATCH := -6012
  ERR_SSL_PROTOCOL_PROCESS_CERTIFICATE := -6027
  ERR_SSL_NO_SELF_SIGNED_CERTIFICATES := -6040
  ERR_SSL_CERT_VALIDATION_FAILED := -6041
  SSL_FLAG_REQUIRE_MUTUAL_AUTH := 8
  SSL_FLAG_NO_MUTUAL_AUTH_REQUEST := 16
  ME_GOAHEAD_VERIFY_PEER := false
  ME_GOAHEAD_CERTIFICATE := "self.crt"
  ME_GOAHEAD_KEY := "self.key"
  ME_DEBUG := false

/-- An environment that answers from a script: every status or count it is asked for is
the next number of the list (0 once the list is used up). Allocation always succeeds. -/
def scriptEngine : Engine (List Int) where
  walloc := fun s => (s, true)
  wfree := fun s => s
  socketGetHandle := fun _ sid => sid
  socketHiddenData := fun s _ _ _ => s
  socketReservice := fun s _ => s
  SSL_acceptConnection := fun s _ => (s.tail, s.headD 0)
  SSL_closeConnection := fun s _ => s
  SSL_getSessionFlags := fun s _ => (s, 0)
  SSL_setSessionFlags := fun s _ _ => s
  SSL_negotiateConnection := fun s _ => (s.tail, s.headD 0)
  SSL_recv := fun s _ _ _ => (s.tail.tail, s.headD 0, s.tail.headD 0)
  SSL_recvPending := fun s _ => (s.tail, s.headD 0)
  SSL_send := fun s _ _ _ => (s.tail, s.headD 0)
  SSL_sendPending := fun s _ => (s.tail, s.headD 0)

/-- A world with no session, the script `s` ahead of it. -/
def freshWorld (s : List Int) : World (List Int) where
  env := s
  ssl := none
  sid := 3
  wpFlags := 0
  spFlags := 0
  errno := 0
  trace := []
  log := []

/-- A world whose session holds handle 7 with the given connected flag. -/
def sessionWorld (connected : Int) (s : List Int) : World (List Int) :=
  { freshWorld s with ssl := some { fd := 0, handle := 7, connected := connected } }

/-! ## Machine integer lemmas -/

theorem toInt32_range (x : Int) : -2147483648 ≤ toInt32 x ∧ toInt32 x ≤ 2147483647 := by
  unfold toInt32
  omega

theorem toInt32_of_range (x : Int) (h1 : -2147483648 ≤ x) (h2 : x ≤ 2147483647) :
    toInt32 x = x := by
  unfold toInt32
  omega

theorem half_pow_ge (w : Nat) (hw : 32 ≤ w) : (2147483648 : Int) ≤ 2 ^ (w - 1) := by
  have h : (2 : Int) ^ 31 ≤ 2 ^ (w - 1) :=
    pow_le_pow_right₀ (by norm_num) (by omega)
  norm_num at h
  exact h

theorem pow_double (w : Nat) (hw : 1 ≤ w) : (2 : Int) ^ w = 2 * 2 ^ (w - 1) := by
  obtain ⟨k, rfl⟩ : ∃ k, w = k + 1 := ⟨w - 1, by omega⟩
  simp [pow_succ]
  ring

theorem wrapSigned_of_range (w : Nat) (hw : 1 ≤ w) (x : Int)
    (h1 : -2 ^ (w - 1) ≤ x) (h2 : x < 2 ^ (w - 1)) : wrapSigned w x = x := by
  unfold wrapSigned
  rw [pow_double w hw]
  generalize (2 : Int) ^ (w - 1) = M at h1 h2
  rw [Int.emod_eq_of_lt (by omega) (by omega)]
  omega

theorem wrapSigned_add_left (w : Nat) (a b : Int) :
    wrapSigned w (wrapSigned w a + b) = wrapSigned w (a + b) := by
  unfold wrapSigned
  congr 1
  have e : (a + 2 ^ (w - 1)) % 2 ^ w - 2 ^ (w - 1) + b + 2 ^ (w - 1)
      = (a + 2 ^ (w - 1)) % 2 ^ w + b := by ring
  rw [e, Int.emod_add_emod]
  congr 1
  ring

/-! ## The write loop -/

theorem sslWriteLoop_spec {σ : Type} (E : Engine σ) (D : Defs) (handle : Int)
    (hw : 32 ≤ D.ssizeBits) :
    ∀ (fuel : Nat) (w : World σ) (buf len total : Int),
      0 < len → len < 2 ^ (D.ssizeBits - 1) → len.toNat ≤ fuel →
      ∃ (rcs : List Int) (last : Int) (w' : World σ) (x : LoopExit),
        sslWriteLoop E D handle fuel w buf len total = .ok (w', x) ∧
        w'.trace = w.trace ++ sendEvents handle buf len (rcs ++ [last]) ∧
        Continues len rcs ∧
        w'.ssl = w.ssl ∧ w'.sid = w.sid ∧ w'.wpFlags = w.wpFlags ∧ w'.errno = w.errno ∧
        w'.log = w.log ++ loopLog D.ssizeBits len total (rcs ++ [last]) ∧
        ((last ≤ 0 ∧ x = LoopExit.failed ∧ w'.spFlags = w.spFlags ||| D.SOCKET_EOF) ∨
         (0 < last ∧ last ≤ 2147483647 ∧ len - rcs.sum - last ≤ 0 ∧
           x = LoopExit.drained (wrapSigned D.ssizeBits (total + (rcs.sum + last))) ∧
           w'.spFlags = w.spFlags)) := by
  intro fuel
  induction fuel with
  | zero =>
    intro w buf len total h0 _ hf
    omega
  | succ n ih =>
    intro w buf len total h0 hM hf
    have hrange := toInt32_range (E.SSL_send w.env handle buf (toInt32 len)).2
    have hM31 := half_pow_ge D.ssizeBits hw
    simp only [sslWriteLoop]
    generalize toInt32 (E.SSL_send w.env handle buf (toInt32 len)).2 = sent at hrange
    by_cases hs : sent ≤ 0
    · rw [if_pos hs]
      refine ⟨[], sent, _, _, rfl, ?_, trivial, rfl, rfl, rfl, rfl, ?_, ?_⟩
      · simp [sendEvents]
      · simp [loopLog, hs]
      · exact Or.inl ⟨hs, rfl, rfl⟩
    · rw [if_neg hs]
      have hlen : wrapSigned D.ssizeBits (len - sent) = len - sent :=
        wrapSigned_of_range _ (by omega) _ (by omega) (by omega)
      rw [hlen]
      by_cases hc : len - sent > 0
      · rw [if_pos hc]
        obtain ⟨rcs, last, w', x, hrun, htr, hcont, hssl, hsid, hwp, herr, hlog, hfin⟩ :=
          ih { w with env := (E.SSL_send w.env handle buf (toInt32 len)).1,
                      trace := w.trace ++ [Call.send handle buf (toInt32 len) sent],
                      log := (w.log ++ [⟨7, "NanoSSL: written %d, requested len %d", [sent, len]⟩])
                        ++ [⟨7, "NanoSSL: write: len %d, written %d, total %d",
                              [len - sent, sent, wrapSigned D.ssizeBits (total + sent)]⟩] }
            (buf + sent) (len - sent) (wrapSigned D.ssizeBits (total + sent))
            hc (by omega) (by omega)
        refine ⟨sent :: rcs, last, w', x, hrun, ?_, ?_, hssl, hsid, hwp, herr, ?_, ?_⟩
        · rw [htr]
          simp [sendEvents]
        · exact ⟨by omega, by omega, hc, hcont⟩
        · rw [hlog]
          simp [loopLog, hs]
        · rcases hfin with ⟨h1, h2, h3⟩ | ⟨h1, h2, h3, h4, h5⟩
          · exact Or.inl ⟨h1, h2, h3⟩
          · refine Or.inr ⟨h1, h2, ?_, ?_, h5⟩
            · simp only [List.sum_cons]
              omega
            · rw [h4, wrapSigned_add_left]
              simp only [List.sum_cons]
              congr 2
              ring
      · rw [if_neg hc]
        refine ⟨[], sent, _, _, rfl, ?_, trivial, rfl, rfl, rfl, rfl, ?_, ?_⟩
        · simp [sendEvents]
        · simp [loopLog, hs]
        · refine Or.inr ⟨by omega, by omega, ?_, ?_, rfl⟩
          · simp
            omega
          · simp

/-! ## Call lists of the write loop -/

theorem sendEvents_append_last (handle : Int) (rcs : List Int) (last : Int) :
    ∀ (buf len : Int), sendEvents handle buf len (rcs ++ [last]) =
      sendEvents handle buf len rcs ++
        [Call.send handle (buf + rcs.sum) (toInt32 (len - rcs.sum)) last] := by
  induction rcs with
  | nil => intro buf len; simp [sendEvents]
  | cons rc rest ih =>
    intro buf len
    have e1 : buf + rc + rest.sum = buf + (rc + rest.sum) := by ring
    have e2 : len - rc - rest.sum = len - (rc + rest.sum) := by ring
    show Call.send handle buf (toInt32 len) rc ::
        sendEvents handle (buf + rc) (len - rc) (rest ++ [last]) = _
    rw [ih, e1, e2]
    simp [sendEvents]

theorem mem_sendEvents (handle : Int) (rcs : List Int) :
    ∀ (buf len : Int) (c : Call), c ∈ sendEvents handle buf len rcs →
      ∃ b l rc, c = Call.send handle b l rc ∧ rc ∈ rcs := by
  induction rcs with
  | nil => intro buf len c h; simp [sendEvents] at h
  | cons rc rest ih =>
    intro buf len c h
    simp only [sendEvents, List.mem_cons] at h
    rcases h with h | h
    · exact ⟨_, _, _, h, by simp⟩
    · obtain ⟨b, l, r, e, hm⟩ := ih _ _ c h
      exact ⟨b, l, r, e, by simp [hm]⟩

theorem sendCalls_append (a b : List Call) : sendCalls (a ++ b) = sendCalls a ++ sendCalls b := by
  induction a with
  | nil => rfl
  | cons c t ih => cases c <;> simp [sendCalls, ih]

theorem acceptedCounts_sendEvents (handle : Int) (rcs : List Int) :
    ∀ (buf len : Int), acceptedCounts (sendEvents handle buf len rcs) = rcs := by
  induction rcs with
  | nil => intro buf len; rfl
  | cons rc rest ih =>
    intro buf len
    have := ih (buf + rc) (len - rc)
    simp only [acceptedCounts] at this
    simp [acceptedCounts, sendEvents, sendCalls, this]

theorem sendCalls_sendEvents_get (handle : Int) (rcs : List Int) :
    ∀ (buf len : Int) (k : Nat) (b l rc : Int),
      (sendCalls (sendEvents handle buf len rcs))[k]? = some (b, l, rc) →
      b = buf + (rcs.take k).sum ∧ l = toInt32 (len - (rcs.take k).sum) ∧ rcs[k]? = some rc := by
  induction rcs with
  | nil => intro buf len k b l rc h; simp [sendEvents, sendCalls] at h
  | cons r rest ih =>
    intro buf len k b l rc h
    cases k with
    | zero =>
      simp [sendEvents, sendCalls] at h
      obtain ⟨h1, h2, h3⟩ := h
      simp [h1, h2, h3]
    | succ k =>
      simp only [sendEvents, sendCalls, List.getElem?_cons_succ] at h
      obtain ⟨h1, h2, h3⟩ := ih _ _ k b l rc h
      refine ⟨?_, ?_, by simpa using h3⟩
      · rw [h1]; simp only [List.take_succ_cons, List.sum_cons]; ring
      · rw [h2]; simp only [List.take_succ_cons, List.sum_cons]; congr 1; ring

theorem continues_take (rcs : List Int) :
    ∀ (len : Int) (k : Nat), 0 < len → Continues len rcs →
      0 ≤ (rcs.take k).sum ∧ (rcs.take k).sum < len ∧ ((rcs.take k).length : Int) ≤ (rcs.take k).sum := by
  induction rcs with
  | nil => intro len k h _; simp; omega
  | cons r rest ih =>
    intro len k h hc
    cases k with
    | zero => simp; omega
    | succ k =>
      obtain ⟨h1, _, h3, h4⟩ := hc
      obtain ⟨i1, i2, i3⟩ := ih (len - r) k h3 h4
      simp only [List.take_succ_cons, List.sum_cons, List.length_cons]
      push_cast
      omega

theorem continues_sum (rcs : List Int) (len : Int) (h : 0 < len) (hc : Continues len rcs) :
    0 ≤ rcs.sum ∧ rcs.sum < len ∧ (rcs.length : Int) ≤ rcs.sum := by
  have := continues_take rcs len rcs.length h hc
  simpa using this

theorem continues_pos (rcs : List Int) :
    ∀ (len : Int), Continues len rcs → ∀ rc ∈ rcs, 0 < rc := by
  induction rcs with
  | nil => intro len _ rc h; simp at h
  | cons r rest ih =>
    intro len hc rc h
    obtain ⟨h1, _, _, h4⟩ := hc
    rcases List.mem_cons.mp h with e | e
    · rw [e]; exact h1
    · exact ih _ h4 rc e

theorem wrapSigned_ne_neg_one (w : Nat) (hw : 1 ≤ w) (s : Int) (h1 : 1 ≤ s)
    (h2 : s ≤ 2 ^ w - 2) : wrapSigned w s ≠ -1 := by
  unfold wrapSigned
  rw [pow_double w hw] at h2 ⊢
  generalize (2 : Int) ^ (w - 1) = M at h2 ⊢
  by_cases hlt : s + M < 2 * M
  · rw [Int.emod_eq_of_lt (by omega) hlt]
    omega
  · have e : s + M = (s - M) + 2 * M := by ring
    rw [e, Int.add_emod_self, Int.emod_eq_of_lt (by omega) (by omega)]
    omega

theorem sslWriteConnected_spec {σ : Type} (E : Engine σ) (D : Defs) (w : World σ)
    (handle buf len : Int) (hw : 32 ≤ D.ssizeBits) (h0 : 0 < len)
    (hM : len < 2 ^ (D.ssizeBits - 1)) :
    ∃ (rcs : List Int) (last : Int) (w' : World σ) (r : Int),
      sslWriteConnected E D w handle buf len = .ok (w', r) ∧
      Continues len rcs ∧
      w'.ssl = w.ssl ∧ w'.sid = w.sid ∧ w'.wpFlags = w.wpFlags ∧ w'.errno = w.errno ∧
      w'.log = w.log ++ loopLog D.ssizeBits len 0 (rcs ++ [last]) ∧
      ((last ≤ 0 ∧ r = -1 ∧ w'.spFlags = w.spFlags ||| D.SOCKET_EOF ∧
          w'.trace = w.trace ++ sendEvents handle buf len (rcs ++ [last])) ∨
       (0 < last ∧ last ≤ 2147483647 ∧ len - rcs.sum - last ≤ 0 ∧
          r = wrapSigned D.ssizeBits (rcs.sum + last) ∧ r ≠ -1 ∧ w'.spFlags = w.spFlags ∧
          ∃ count : Int, w'.trace = w.trace ++ sendEvents handle buf len (rcs ++ [last]) ++
            Call.sendPending handle count ::
              (if 0 < count then [Call.reservice w.sid] else []))) := by
  obtain ⟨rcs, last, w1, x, hrun, htr, hcont, hssl, hsid, hwp, herr, hlog, hfin⟩ :=
    sslWriteLoop_spec E D handle hw len.toNat w buf len 0 h0 hM (le_refl _)
  have hM31 := half_pow_ge D.ssizeBits hw
  have hdouble := pow_double D.ssizeBits (by omega)
  rcases hfin with ⟨h1, h2, h3⟩ | ⟨h1, h2, h3, h4, h5⟩
  · subst h2
    refine ⟨rcs, last, w1, -1, ?_, hcont, hssl, hsid, hwp, herr, hlog, Or.inl ⟨h1, rfl, h3, htr⟩⟩
    simp [sslWriteConnected, hrun]
  · subst h4
    have hsum := continues_sum rcs len h0 hcont
    have hne : wrapSigned D.ssizeBits (rcs.sum + last) ≠ -1 :=
      wrapSigned_ne_neg_one _ (by omega) _ (by omega) (by omega)
    simp only [zero_add] at hrun
    refine ⟨rcs, last, ?_⟩
    simp only [sslWriteConnected, hrun]
    by_cases hc : toInt32 (E.SSL_sendPending w1.env handle).2 > 0
    · rw [if_pos hc]
      refine ⟨_, _, rfl, hcont, hssl, hsid, hwp, herr, hlog, Or.inr ⟨h1, h2, h3, rfl, hne, h5,
        toInt32 (E.SSL_sendPending w1.env handle).2, ?_⟩⟩
      simp [htr, hsid, hc]
    · rw [if_neg hc]
      refine ⟨_, _, rfl, hcont, hssl, hsid, hwp, herr, hlog, Or.inr ⟨h1, h2, h3, rfl, hne, h5,
        toInt32 (E.SSL_sendPending w1.env handle).2, ?_⟩⟩
      have : ¬ (0 < toInt32 (E.SSL_sendPending w1.env handle).2) := hc
      simp [htr, this]

/-! ## Flag words -/

theorem or_eq_self_and (a m : Nat) : (a ||| m) &&& m = m := by
  apply Nat.eq_of_testBit_eq
  intro i
  simp only [Nat.testBit_and, Nat.testBit_or]
  cases a.testBit i <;> cases m.testBit i <;> rfl

theorem clear_and_self (a m : Nat) (hm : m < 4294967296) : (a &&& not32 m) &&& m = 0 := by
  apply Nat.eq_of_testBit_eq
  intro i
  have e : (4294967295 : Nat) = 2 ^ 32 - 1 := by norm_num
  simp only [not32, Nat.testBit_and, Nat.testBit_xor, Nat.zero_testBit, e,
    Nat.testBit_two_pow_sub_one]
  by_cases hi : i < 32
  · simp [hi]
  · have hlt : m < 2 ^ i :=
      lt_of_lt_of_le hm (by
        have : (2 : Nat) ^ 32 ≤ 2 ^ i := Nat.pow_le_pow_right (by norm_num) (by omega)
        norm_num at this ⊢
        exact this)
    simp [Nat.testBit_eq_false_of_lt hlt]

/-! ## The handshake -/

theorem handshakeSetup_trace {σ : Type} (E : Engine σ) (D : Defs) (w : World σ) (np : Nano) :
    ∃ f0 f1, (handshakeSetup E D w np).trace = w.trace ++
        [Call.getSessionFlags np.handle f0, Call.setSessionFlags np.handle f1] :=
  ⟨_, _, rfl⟩

theorem handshakeSetup_fields {σ : Type} (E : Engine σ) (D : Defs) (w : World σ) (np : Nano) :
    (handshakeSetup E D w np).ssl = w.ssl ∧ (handshakeSetup E D w np).sid = w.sid ∧
    (handshakeSetup E D w np).wpFlags = w.wpFlags ||| D.SOCKET_HANDSHAKING ∧
    (handshakeSetup E D w np).spFlags = w.spFlags ∧
    (handshakeSetup E D w np).errno = w.errno :=
  ⟨rfl, rfl, rfl, rfl, rfl⟩

theorem nanoHandshake_spec {σ : Type} (E : Engine σ) (D : Defs) (w : World σ) (np : Nano)
    (hc : np.connected = 0) :
    (∃ f0 f1, (nanoHandshake E D w np).1.trace = w.trace ++
        [Call.getSessionFlags np.handle f0, Call.setSessionFlags np.handle f1,
         Call.negotiate np.handle (negotiateStatus E D w np)]) ∧
    (nanoHandshake E D w np).1.sid = w.sid ∧
    (nanoHandshake E D w np).1.wpFlags =
      (w.wpFlags ||| D.SOCKET_HANDSHAKING) &&& not32 D.SOCKET_HANDSHAKING ∧
    (negotiateStatus E D w np < 0 →
      (nanoHandshake E D w np).2 = -1 ∧ (nanoHandshake E D w np).1.ssl = w.ssl ∧
      (nanoHandshake E D w np).1.spFlags = w.spFlags ||| D.SOCKET_EOF ∧
      (nanoHandshake E D w np).1.errno = D.EPROTO) ∧
    (0 ≤ negotiateStatus E D w np →
      (nanoHandshake E D w np).2 = 1 ∧
      (nanoHandshake E D w np).1.ssl = some { np with connected := 1 } ∧
      (nanoHandshake E D w np).1.spFlags = w.spFlags ∧
      (nanoHandshake E D w np).1.errno = w.errno) := by
  obtain ⟨f0, f1, hf⟩ := handshakeSetup_trace E D w np
  obtain ⟨e1, e2, e3, e4, e5⟩ := handshakeSetup_fields E D w np
  unfold negotiateStatus
  simp only [nanoHandshake, hc, if_true]
  generalize handshakeSetup E D w np = w1 at hf e1 e2 e3 e4 e5 ⊢
  by_cases h : toInt32 (E.SSL_negotiateConnection w1.env np.handle).2 < 0
  · simp only [if_pos h]
    refine ⟨⟨f0, f1, ?_⟩, e2, ?_, fun _ => ⟨trivial, e1, ?_, trivial⟩, fun h2 => absurd h2 (by omega)⟩
    · simp [hf]
    · simp [e3]
    · simp [e4]
  · simp only [if_neg h]
    refine ⟨⟨f0, f1, ?_⟩, e2, ?_, fun h2 => absurd h2 h, fun _ => ⟨trivial, trivial, e4, e5⟩⟩
    · simp [hf]
    · simp [e3]

/-! ## Entry points on an unconnected session whose negotiation fails -/

theorem step_failed_handshake {σ : Type} (E : Engine σ) (D : Defs) (w : World σ) (np : Nano)
    (op : Op) (hs : w.ssl = some np) (hc : np.connected = 0) (hop : op.admitted)
    (hrc : negotiateStatus E D w np < 0) :
    step E D w op = .ok ((nanoHandshake E D w np).1, -1) := by
  obtain ⟨_, _, _, hneg, _⟩ := nanoHandshake_spec E D w np hc
  obtain ⟨h2, _⟩ := hneg hrc
  cases op with
  | read buf len =>
    simp only [step, sslRead, hs, hc, if_true]
    rw [if_pos (by rw [h2]; decide), h2]
  | write buf len =>
    have hlen : ¬ len ≤ 0 := not_le.mpr hop
    simp only [step, sslWrite, hs, hc, if_true, if_neg hlen]
    rw [if_pos (by rw [h2]; decide), h2]

/-- C3: on an unconnected session, when `SSL_negotiateConnection` answers any negative
status (one of the six named codes or not), a call of `sslRead`, or of `sslWrite` with
`len > 0`, returns -1, leaves the session unconnected, sets `SOCKET_EOF` in the socket
flags, sets `errno` to `EPROTO`, leaves `SOCKET_HANDSHAKING` cleared in `wp->flags`, and
makes none of the data-path calls (`SSL_recv`, `SSL_send`, the pending queries, the
hidden-data and reservice signals); negotiation itself is called once. -/
theorem failed_handshake_is_generic_failure {σ : Type} (E : Engine σ) (D : Defs)
    (w : World σ) (np : Nano) (op : Op)
    (hs : w.ssl = some np) (hc : np.connected = 0) (hop : op.admitted)
    (hrc : negotiateStatus E D w np < 0) (hH : D.SOCKET_HANDSHAKING < 4294967296) :
    ∃ (w' : World σ) (evs : List Call),
      step E D w op = .ok (w', -1) ∧
      w'.ssl = some np ∧
      w'.spFlags = w.spFlags ||| D.SOCKET_EOF ∧
      w'.spFlags &&& D.SOCKET_EOF = D.SOCKET_EOF ∧
      w'.errno = D.EPROTO ∧
      w'.wpFlags &&& D.SOCKET_HANDSHAKING = 0 ∧
      w'.trace = w.trace ++ evs ∧
      (∀ c ∈ evs, c.isTransfer = false) ∧
      negotiateCalls evs = 1 := by
  obtain ⟨⟨f0, f1, htr⟩, _, hwp, hneg, _⟩ := nanoHandshake_spec E D w np hc
  obtain ⟨_, hssl, hsp, herr⟩ := hneg hrc
  refine ⟨(nanoHandshake E D w np).1, _, step_failed_handshake E D w np op hs hc hop hrc,
    by rw [hssl, hs], hsp, ?_, herr, ?_, htr, ?_, ?_⟩
  · rw [hsp]
    exact or_eq_self_and _ _
  · rw [hwp]
    exact clear_and_self _ _ hH
  · intro c hcm
    simp only [List.mem_cons, List.mem_singleton, List.not_mem_nil, or_false] at hcm
    rcases hcm with e | e | e <;> rw [e] <;> rfl
  · simp [negotiateCalls, List.countP_cons, Call.isNegotiate]

theorem failed_handshake_is_generic_failure_witness :
    ∃ (w' : World (List Int)) (evs : List Call),
      step scriptEngine sampleDefs (sessionWorld 0 [-6040]) (Op.write 1000 10) = .ok (w', -1) ∧
      w'.ssl = some { fd := 0, handle := 7, connected := 0 } ∧
      w'.spFlags = (sessionWorld 0 [-6040]).spFlags ||| sampleDefs.SOCKET_EOF ∧
      w'.spFlags &&& sampleDefs.SOCKET_EOF = sampleDefs.SOCKET_EOF ∧
      w'.errno = sampleDefs.EPROTO ∧
      w'.wpFlags &&& sampleDefs.SOCKET_HANDSHAKING = 0 ∧
      w'.trace = (sessionWorld 0 [-6040]).trace ++ evs ∧
      (∀ c ∈ evs, c.isTransfer = false) ∧
      negotiateCalls evs = 1 :=
  failed_handshake_is_generic_failure scriptEngine sampleDefs (sessionWorld 0 [-6040])
    { fd := 0, handle := 7, connected := 0 } (Op.write 1000 10) rfl rfl (by simp [Op.admitted])
    (by decide) (by decide)

/-! ## sslRead -/

theorem sslReadConnected_spec {σ : Type} (E : Engine σ) (D : Defs) (w : World σ)
    (handle buf len : Int) :
    (sslReadConnected E D w handle buf len).1.ssl = w.ssl ∧
    (sslReadConnected E D w handle buf len).1.sid = w.sid ∧
    (sslReadConnected E D w handle buf len).1.wpFlags = w.wpFlags ∧
    (sslReadConnected E D w handle buf len).1.errno = w.errno ∧
    (toInt32 (E.SSL_recv w.env handle buf (toInt32 len)).2.1 < 0 →
      (sslReadConnected E D w handle buf len).2 = -1 ∧
      (sslReadConnected E D w handle buf len).1.trace = w.trace ++
        [Call.recv handle buf (toInt32 len)
          (toInt32 (E.SSL_recv w.env handle buf (toInt32 len)).2.1)
          (toInt32 (E.SSL_recv w.env handle buf (toInt32 len)).2.2)] ∧
      (toInt32 (E.SSL_recv w.env handle buf (toInt32 len)).2.1 ≠ D.ERR_TCP_READ_ERROR →
        (sslReadConnected E D w handle buf len).1.spFlags = w.spFlags ||| D.SOCKET_EOF) ∧
      (toInt32 (E.SSL_recv w.env handle buf (toInt32 len)).2.1 = D.ERR_TCP_READ_ERROR →
        (sslReadConnected E D w handle buf len).1.spFlags = w.spFlags)) ∧
    (0 ≤ toInt32 (E.SSL_recv w.env handle buf (toInt32 len)).2.1 →
      (sslReadConnected E D w handle buf len).2 =
        toInt32 (E.SSL_recv w.env handle buf (toInt32 len)).2.2 ∧
      (sslReadConnected E D w handle buf len).1.spFlags = w.spFlags ∧
      ∃ M : Int, (sslReadConnected E D w handle buf len).1.trace = w.trace ++
        Call.recv handle buf (toInt32 len)
          (toInt32 (E.SSL_recv w.env handle buf (toInt32 len)).2.1)
          (toInt32 (E.SSL_recv w.env handle buf (toInt32 len)).2.2) ::
        Call.recvPending handle M ::
        (if 0 < M then [Call.hiddenData w.sid M D.SOCKET_READABLE] else [])) := by
  simp only [sslReadConnected]
  generalize toInt32 (E.SSL_recv w.env handle buf (toInt32 len)).2.1 = rc
  generalize toInt32 (E.SSL_recv w.env handle buf (toInt32 len)).2.2 = nbytes
  by_cases h : rc < 0
  · have h2 : ¬ 0 ≤ rc := by omega
    by_cases he : rc = D.ERR_TCP_READ_ERROR
    · subst he
      simp [h, h2]
    · simp [h, he, h2]
  · have h2 : 0 ≤ rc := by omega
    generalize toInt32 (E.SSL_recvPending (E.SSL_recv w.env handle buf (toInt32 len)).1 handle).2
      = M
    by_cases hm : 0 < M
    · simp only [if_neg h, gt_iff_lt, if_pos hm]
      simp [h, h2, hm]
    · simp only [if_neg h, gt_iff_lt, if_neg hm]
      simp [h, h2, hm]
      omega

/-- C4: on a connected session `sslRead` makes exactly one `SSL_recv` call, on the
session handle and the caller buffer, with the caller length cast to `sbyte4` (never
above `len` when `len` is non-negative, equal to it when it fits 32 bits). If the status
is non-negative it returns the reported byte count and leaves the socket flags alone; if
the status is negative it returns -1, sets `SOCKET_EOF` when the status is not
`ERR_TCP_READ_ERROR` and leaves the socket flags unchanged when it is. -/
theorem sslRead_connected_maps_recv {σ : Type} (E : Engine σ) (D : Defs) (w : World σ)
    (np : Nano) (buf len : Int) (hs : w.ssl = some np) (hc : np.connected ≠ 0) :
    ∃ (w' : World σ) (ret : Int) (evs : List Call) (l rc nbytes : Int),
      sslRead E D w buf len = .ok (w', ret) ∧
      w'.trace = w.trace ++ evs ∧
      recvCalls evs = [(np.handle, buf, l, rc, nbytes)] ∧
      l = toInt32 len ∧ (0 ≤ len → l ≤ len) ∧ (0 ≤ len → len ≤ 2147483647 → l = len) ∧
      rc = toInt32 (E.SSL_recv w.env np.handle buf l).2.1 ∧
      nbytes = toInt32 (E.SSL_recv w.env np.handle buf l).2.2 ∧
      (0 ≤ rc → ret = nbytes ∧ w'.spFlags = w.spFlags) ∧
      (rc < 0 → ret = -1 ∧
        (rc ≠ D.ERR_TCP_READ_ERROR → w'.spFlags = w.spFlags ||| D.SOCKET_EOF ∧
          w'.spFlags &&& D.SOCKET_EOF = D.SOCKET_EOF) ∧
        (rc = D.ERR_TCP_READ_ERROR → w'.spFlags = w.spFlags)) := by
  obtain ⟨_, _, _, _, hneg, hpos⟩ := sslReadConnected_spec E D w np.handle buf len
  have hrun : sslRead E D w buf len = .ok ((sslReadConnected E D w np.handle buf len).1,
      (sslReadConnected E D w np.handle buf len).2) := by
    simp only [sslRead, hs, if_neg hc]
  have hl1 : 0 ≤ len → toInt32 len ≤ len := by
    intro h; unfold toInt32; omega
  have hl2 : 0 ≤ len → len ≤ 2147483647 → toInt32 len = len := by
    intro h h2; exact toInt32_of_range _ (by omega) h2
  by_cases h : toInt32 (E.SSL_recv w.env np.handle buf (toInt32 len)).2.1 < 0
  · obtain ⟨h1, h2, h3, h4⟩ := hneg h
    refine ⟨(sslReadConnected E D w np.handle buf len).1,
      (sslReadConnected E D w np.handle buf len).2, _, toInt32 len, _, _, hrun, h2, ?_,
      rfl, hl1, hl2, rfl, rfl,
      fun h5 => absurd h (by omega), fun _ => ⟨h1, fun h6 => ⟨h3 h6, ?_⟩, h4⟩⟩
    · simp [recvCalls]
    · rw [h3 h6]
      exact or_eq_self_and _ _
  · obtain ⟨h1, h2, M, h3⟩ := hpos (by omega)
    refine ⟨(sslReadConnected E D w np.handle buf len).1,
      (sslReadConnected E D w np.handle buf len).2, _, toInt32 len, _, _, hrun, h3, ?_,
      rfl, hl1, hl2, rfl, rfl,
      fun _ => ⟨h1, h2⟩, fun h5 => absurd h5 h⟩
    by_cases hm : 0 < M <;> simp [recvCalls, hm]

theorem sslRead_connected_maps_recv_witness :
    ∃ (w' : World (List Int)) (ret : Int) (evs : List Call) (l rc nbytes : Int),
      sslRead scriptEngine sampleDefs (sessionWorld 1 [0, 5, 2]) 1000 8 = .ok (w', ret) ∧
      w'.trace = (sessionWorld 1 [0, 5, 2]).trace ++ evs ∧
      recvCalls evs = [((7 : Int), 1000, l, rc, nbytes)] ∧
      l = toInt32 8 ∧ ((0 : Int) ≤ 8 → l ≤ 8) ∧ ((0 : Int) ≤ 8 → (8 : Int) ≤ 2147483647 → l = 8) ∧
      rc = toInt32 (scriptEngine.SSL_recv (sessionWorld 1 [0, 5, 2]).env 7 1000 l).2.1 ∧
      nbytes = toInt32 (scriptEngine.SSL_recv (sessionWorld 1 [0, 5, 2]).env 7 1000 l).2.2 ∧
      (0 ≤ rc → ret = nbytes ∧ w'.spFlags = (sessionWorld 1 [0, 5, 2]).spFlags) ∧
      (rc < 0 → ret = -1 ∧
        (rc ≠ sampleDefs.ERR_TCP_READ_ERROR →
          w'.spFlags = (sessionWorld 1 [0, 5, 2]).spFlags ||| sampleDefs.SOCKET_EOF ∧
          w'.spFlags &&& sampleDefs.SOCKET_EOF = sampleDefs.SOCKET_EOF) ∧
        (rc = sampleDefs.ERR_TCP_READ_ERROR →
          w'.spFlags = (sessionWorld 1 [0, 5, 2]).spFlags)) :=
  sslRead_connected_maps_recv scriptEngine sampleDefs (sessionWorld 1 [0, 5, 2])
    { fd := 0, handle := 7, connected := 1 } 1000 8 rfl (by decide)

theorem acceptedCounts_append (a b : List Call) :
    acceptedCounts (a ++ b) = acceptedCounts a ++ acceptedCounts b := by
  simp [acceptedCounts, sendCalls_append]

theorem sendCalls_flush_tail (handle count sid : Int) :
    sendCalls (Call.sendPending handle count ::
      (if 0 < count then [Call.reservice sid] else [])) = [] := by
  by_cases h : 0 < count <;> simp [sendCalls, h]

theorem send_not_mem_flush_tail (handle count sid h b l rc : Int) :
    Call.send h b l rc ∉ (Call.sendPending handle count ::
      (if 0 < count then [Call.reservice sid] else [])) := by
  by_cases hc : 0 < count <;> simp [hc]

theorem sslWrite_connected_eq {σ : Type} (E : Engine σ) (D : Defs) (w : World σ) (np : Nano)
    (buf len : Int) (hs : w.ssl = some np) (hc : np.connected ≠ 0) (h0 : 0 < len) :
    sslWrite E D w buf len = sslWriteConnected E D w np.handle buf len := by
  have hlen : ¬ len ≤ 0 := not_le.mpr h0
  simp only [sslWrite, hs, if_neg hc, if_neg hlen]

theorem sslWrite_handshake_eq {σ : Type} (E : Engine σ) (D : Defs) (w : World σ) (np : Nano)
    (buf len : Int) (hs : w.ssl = some np) (hc : np.connected = 0) (h0 : 0 < len)
    (hrc : 0 ≤ negotiateStatus E D w np) :
    sslWrite E D w buf len =
      sslWriteConnected E D (nanoHandshake E D w np).1 np.handle buf len := by
  have hlen : ¬ len ≤ 0 := not_le.mpr h0
  obtain ⟨_, _, _, _, hpos⟩ := nanoHandshake_spec E D w np hc
  obtain ⟨h2, _⟩ := hpos hrc
  simp only [sslWrite, hs, hc, if_true, if_neg hlen]
  rw [if_neg (by rw [h2]; decide)]

/-- C1: on a connected session, for every length `0 < L <= 2^31 - 1` and every engine,
`sslWrite` returns. If each `SSL_send` call of the run accepts at least 1 and at most the
length offered on that call, the value returned is exactly `L`, which is the sum of the
accepted counts. If some `SSL_send` call answers zero or a negative value, `sslWrite`
returns -1, `SOCKET_EOF` is set in the socket flags, and that call is the last call of
the run (no further `SSL_send` follows it; all earlier ones accepted a positive count). -/
theorem sslWrite_fully_draining {σ : Type} (E : Engine σ) (D : Defs) (w : World σ)
    (np : Nano) (buf L : Int) (hs : w.ssl = some np) (hc : np.connected ≠ 0)
    (h0 : 0 < L) (hL : L ≤ 2147483647) (hw : 32 ≤ D.ssizeBits) :
    ∃ (w' : World σ) (ret : Int) (evs : List Call),
      sslWrite E D w buf L = .ok (w', ret) ∧
      w'.trace = w.trace ++ evs ∧
      ((∀ h b l rc, Call.send h b l rc ∈ evs → 1 ≤ rc ∧ rc ≤ l) →
        ret = L ∧ (acceptedCounts evs).sum = L) ∧
      (∀ h b l rc, Call.send h b l rc ∈ evs → rc ≤ 0 →
        ret = -1 ∧ w'.spFlags = w.spFlags ||| D.SOCKET_EOF ∧
        w'.spFlags &&& D.SOCKET_EOF = D.SOCKET_EOF ∧
        ∃ pre : List Call, evs = pre ++ [Call.send h b l rc] ∧
          ∀ h1 b1 l1 rc1, Call.send h1 b1 l1 rc1 ∈ pre → 0 < rc1) := by
  have hM31 := half_pow_ge D.ssizeBits hw
  obtain ⟨rcs, last, w', ret, hrun, hcont, _, _, _, _, _, hfin⟩ :=
    sslWriteConnected_spec E D w np.handle buf L hw h0 (by omega)
  rw [← sslWrite_connected_eq E D w np buf L hs hc h0] at hrun
  have hsum := continues_sum rcs L h0 hcont
  have hpos := continues_pos rcs L hcont
  rcases hfin with ⟨h1, h2, h3, h4⟩ | ⟨h1, h2, h3, h4, _, h5, count, h6⟩
  · refine ⟨w', ret, _, hrun, h4, ?_, ?_⟩
    · intro hall
      have := hall np.handle (buf + rcs.sum) (toInt32 (L - rcs.sum)) last
        (by rw [sendEvents_append_last]; simp)
      omega
    · intro h b l rc hm hrc
      rw [sendEvents_append_last] at hm ⊢
      rcases List.mem_append.mp hm with hm | hm
      · obtain ⟨_, _, r, e, hr⟩ := mem_sendEvents _ _ _ _ _ hm
        simp only [Call.send.injEq] at e
        have := hpos r hr
        omega
      · simp only [List.mem_singleton] at hm
        refine ⟨h2, h3, by rw [h3]; exact or_eq_self_and _ _, _, by rw [hm], ?_⟩
        intro h1' b1 l1 rc1 hm1
        obtain ⟨_, _, r, e, hr⟩ := mem_sendEvents _ _ _ _ _ hm1
        simp only [Call.send.injEq] at e
        have := hpos r hr
        omega
  · refine ⟨w', ret, _, hrun, by rw [h6, List.append_assoc], ?_, ?_⟩
    · intro hall
      have hlast := hall np.handle (buf + rcs.sum) (toInt32 (L - rcs.sum)) last
        (by rw [sendEvents_append_last]; simp)
      rw [toInt32_of_range _ (by omega) (by omega)] at hlast
      have hsumL : rcs.sum + last = L := by omega
      refine ⟨?_, ?_⟩
      · rw [h4, hsumL]
        exact wrapSigned_of_range _ (by omega) _ (by omega) (by omega)
      · rw [acceptedCounts_append, acceptedCounts_sendEvents]
        simp only [acceptedCounts, sendCalls_flush_tail]
        simp [hsumL]
    · intro h b l rc hm hrc
      rcases List.mem_append.mp hm with hm | hm
      · obtain ⟨_, _, r, e, hr⟩ := mem_sendEvents _ _ _ _ _ hm
        simp only [Call.send.injEq] at e
        rcases List.mem_append.mp hr with hr | hr
        · have := hpos r hr
          omega
        · simp only [List.mem_singleton] at hr
          omega
      · exact absurd hm (send_not_mem_flush_tail _ _ _ _ _ _ _)

theorem sslWrite_fully_draining_witness :
    ∃ (w' : World (List Int)) (ret : Int) (evs : List Call),
      sslWrite scriptEngine sampleDefs (sessionWorld 1 [4, 6, 0]) 1000 10 = .ok (w', ret) ∧
      w'.trace = (sessionWorld 1 [4, 6, 0]).trace ++ evs ∧
      ((∀ h b l rc, Call.send h b l rc ∈ evs → 1 ≤ rc ∧ rc ≤ l) →
        ret = 10 ∧ (acceptedCounts evs).sum = 10) ∧
      (∀ h b l rc, Call.send h b l rc ∈ evs → rc ≤ 0 →
        ret = -1 ∧
        w'.spFlags = (sessionWorld 1 [4, 6, 0]).spFlags ||| sampleDefs.SOCKET_EOF ∧
        w'.spFlags &&& sampleDefs.SOCKET_EOF = sampleDefs.SOCKET_EOF ∧
        ∃ pre : List Call, evs = pre ++ [Call.send h b l rc] ∧
          ∀ h1 b1 l1 rc1, Call.send h1 b1 l1 rc1 ∈ pre → 0 < rc1) :=
  sslWrite_fully_draining scriptEngine sampleDefs (sessionWorld 1 [4, 6, 0])
    { fd := 0, handle := 7, connected := 1 } 1000 10 rfl (by decide) (by decide) (by decide)
    (by decide)

/-- Scenario of C1 evaluated: length 10, the engine accepts 4 then 6 bytes; `sslWrite`
returns 10 after two `SSL_send` calls, the second offered the 6 bytes left at offset 4. -/
theorem sslWrite_ten_in_two_chunks :
    (sslWrite scriptEngine sampleDefs (sessionWorld 1 [4, 6, 0]) 1000 10).toOption.map
        (fun p => (p.2, p.1.trace)) =
      some (10, [Call.send 7 1000 10 4, Call.send 7 1004 6 6, Call.sendPending 7 0]) := by
  decide

/-- Failure scenario of C1 evaluated: the engine accepts 4 bytes and then answers 0;
`sslWrite` returns -1 with `SOCKET_EOF` set and makes no third `SSL_send` call. -/
theorem sslWrite_send_failure :
    (sslWrite scriptEngine sampleDefs (sessionWorld 1 [4, 0, 9]) 1000 10).toOption.map
        (fun p => (p.2, p.1.spFlags, p.1.trace)) =
      some (-1, 1, [Call.send 7 1000 10 4, Call.send 7 1004 6 0]) := by
  decide

/-- Scenario of C9 evaluated: the handshake succeeds, the engine accepts 4 then 6 bytes
and reports 12 bytes still pending; `socketReservice` is called once, last. -/
theorem sslWrite_reservice_once :
    (sslWrite scriptEngine sampleDefs (sessionWorld 0 [0, 4, 6, 12]) 1000 10).toOption.map
        (fun p => (p.2, p.1.trace)) =
      some (10, [Call.getSessionFlags 7 0, Call.setSessionFlags 7 16, Call.negotiate 7 0,
        Call.send 7 1000 10 4, Call.send 7 1004 6 6, Call.sendPending 7 12,
        Call.reservice 3]) := by
  decide

theorem sendCalls_length_sendEvents (handle : Int) (rcs : List Int) (buf len : Int) :
    (sendCalls (sendEvents handle buf len rcs)).length = rcs.length := by
  have h := acceptedCounts_sendEvents handle rcs buf len
  have h2 := congrArg List.length h
  simpa [acceptedCounts] using h2

theorem progressLog_loopLog (bits : Nat) (hb : 1 ≤ bits) (rcs : List Int) :
    ∀ (len total : Int) (k : Nat) (rc : Int),
      (∀ r ∈ rcs, 0 < r) → 0 ≤ total → total + rcs.sum < 2 ^ (bits - 1) →
      rcs[k]? = some rc →
      (progressLog (loopLog bits len total rcs))[k]? =
        some (len - (rcs.take k).sum - rc, rc, total + (rcs.take k).sum + rc) := by
  induction rcs with
  | nil => intro len total k rc _ _ _ h; simp at h
  | cons r rest ih =>
    intro len total k rc hpos ht hsum hk
    have hr : 0 < r := hpos r (List.mem_cons_self _ _)
    have hrest : ∀ x ∈ rest, 0 < x := fun x hx => hpos x (List.mem_cons_of_mem _ hx)
    have hnn : 0 ≤ rest.sum := List.sum_nonneg (fun x hx => le_of_lt (hrest x hx))
    have hpow : (0 : Int) < 2 ^ (bits - 1) := by positivity
    simp only [List.sum_cons] at hsum
    have hwrap : wrapSigned bits (total + r) = total + r :=
      wrapSigned_of_range bits hb _ (by omega) (by omega)
    have hnot : ¬ r ≤ 0 := by omega
    have hstep : progressLog (loopLog bits len total (r :: rest)) =
        (len - r, r, total + r) :: progressLog (loopLog bits (len - r) (total + r) rest) := by
      simp [loopLog, progressLog, hnot, hwrap]
    rw [hstep]
    cases k with
    | zero =>
      simp only [List.getElem?_cons_zero, Option.some.injEq] at hk
      subst hk
      simp
    | succ k =>
      simp only [List.getElem?_cons_succ] at hk ⊢
      rw [ih (len - r) (total + r) k rc hrest (by omega) (by omega) hk]
      simp only [List.take_succ_cons, List.sum_cons]
      congr 1
      refine Prod.ext (by simp; ring) (Prod.ext rfl (by simp; ring))

/-- C10: on a connected session, for every `0 < L <= 2^31 - 1`, `sslWrite` returns, and if
every `SSL_send` call of the run accepts between 1 and the length offered, then the
`k`-th `SSL_send` call is offered the buffer at the caller address plus the sum of the
counts accepted by the calls before it, with length `L` minus that sum, which is
positive; after that call the loop logs a remaining length lowered by the count accepted
and a running total equal to the offset of the next call; the counts accepted add up to
`L` (the loop stops exactly when nothing is left), that sum is the total returned, and
there are at least one and at most `L` `SSL_send` calls. -/
theorem sslWrite_loop_progress {σ : Type} (E : Engine σ) (D : Defs) (w : World σ)
    (np : Nano) (buf L : Int) (hs : w.ssl = some np) (hc : np.connected ≠ 0)
    (h0 : 0 < L) (hL : L ≤ 2147483647) (hw : 32 ≤ D.ssizeBits) :
    ∃ (w' : World σ) (ret : Int) (evs : List Call) (lg : List LogMsg),
      sslWrite E D w buf L = .ok (w', ret) ∧
      w'.trace = w.trace ++ evs ∧ w'.log = w.log ++ lg ∧
      ((∀ h b l rc, Call.send h b l rc ∈ evs → 1 ≤ rc ∧ rc ≤ l) →
        (∀ (k : Nat) (b l rc : Int), (sendCalls evs)[k]? = some (b, l, rc) →
          b = buf + ((acceptedCounts evs).take k).sum ∧
          l = L - ((acceptedCounts evs).take k).sum ∧
          b - buf + l = L ∧ 0 < l ∧
          (progressLog lg)[k]? = some (l - rc, rc, b - buf + rc)) ∧
        (acceptedCounts evs).sum = L ∧
        ret = (acceptedCounts evs).sum ∧
        0 < (sendCalls evs).length ∧
        ((sendCalls evs).length : Int) ≤ L) := by
  have hM31 := half_pow_ge D.ssizeBits hw
  obtain ⟨rcs, last, w', ret, hrun, hcont, _, _, _, _, hlog, hfin⟩ :=
    sslWriteConnected_spec E D w np.handle buf L hw h0 (by omega)
  rw [← sslWrite_connected_eq E D w np buf L hs hc h0] at hrun
  have hsum := continues_sum rcs L h0 hcont
  rcases hfin with ⟨h1, h2, h3, h4⟩ | ⟨h1, h2, h3, h4, _, h5, count, h6⟩
  · refine ⟨w', ret, _, _, hrun, h4, hlog, ?_⟩
    intro hall
    have := hall np.handle (buf + rcs.sum) (toInt32 (L - rcs.sum)) last
      (by rw [sendEvents_append_last]; simp)
    omega
  · refine ⟨w', ret, _, _, hrun, by rw [h6, List.append_assoc], hlog, ?_⟩
    intro hall
    have hlast := hall np.handle (buf + rcs.sum) (toInt32 (L - rcs.sum)) last
      (by rw [sendEvents_append_last]; simp)
    rw [toInt32_of_range _ (by omega) (by omega)] at hlast
    have hsumL : rcs.sum + last = L := by omega
    have hacc : acceptedCounts (sendEvents np.handle buf L (rcs ++ [last]) ++
        Call.sendPending np.handle count ::
          (if 0 < count then [Call.reservice w.sid] else [])) = rcs ++ [last] := by
      rw [acceptedCounts_append, acceptedCounts_sendEvents]
      simp only [acceptedCounts, sendCalls_flush_tail]
      simp
    have hcalls : sendCalls (sendEvents np.handle buf L (rcs ++ [last]) ++
        Call.sendPending np.handle count ::
          (if 0 < count then [Call.reservice w.sid] else [])) =
        sendCalls (sendEvents np.handle buf L (rcs ++ [last])) := by
      rw [sendCalls_append, sendCalls_flush_tail, List.append_nil]
    rw [hacc, hcalls, sendCalls_length_sendEvents]
    refine ⟨?_, by simp [hsumL], ?_, by simp, ?_⟩
    · intro k b l rc hk
      obtain ⟨e1, e2, e3⟩ := sendCalls_sendEvents_get _ _ _ _ _ _ _ _ hk
      have hklt : k < (rcs ++ [last]).length := by
        by_contra hge
        rw [List.getElem?_eq_none (by omega)] at e3
        exact absurd e3 (by simp)
      have hkle : k ≤ rcs.length := by
        simp only [List.length_append, List.length_singleton] at hklt
        omega
      have hallpos : ∀ r ∈ rcs ++ [last], 0 < r := by
        intro r hr
        rcases List.mem_append.mp hr with hr | hr
        · exact continues_pos rcs L hcont r hr
        · simp only [List.mem_singleton] at hr
          omega
      have hprog := progressLog_loopLog D.ssizeBits (by omega) (rcs ++ [last]) L 0 k rc
        hallpos (le_refl _)
        (by simp only [List.sum_append, List.sum_singleton, hsumL]; omega) e3
      rw [List.take_append_of_le_length hkle] at e1 e2 hprog ⊢
      obtain ⟨t1, t2, _⟩ := continues_take rcs L k h0 hcont
      rw [toInt32_of_range _ (by omega) (by omega)] at e2
      refine ⟨e1, e2, ?_, ?_, ?_⟩
      · rw [e1, e2]; ring
      · rw [e2]; omega
      · rw [hprog, e1, e2]
        congr 1
        refine Prod.ext rfl (Prod.ext rfl (by simp))
    · rw [h4]
      simp only [List.sum_append, List.sum_singleton, hsumL]
      exact wrapSigned_of_range _ (by omega) _ (by omega) (by omega)
    · simp only [List.length_append, List.length_singleton]
      push_cast
      omega

theorem sslWrite_loop_progress_witness :
    ∃ (w' : World (List Int)) (ret : Int) (evs : List Call) (lg : List LogMsg),
      sslWrite scriptEngine sampleDefs (sessionWorld 1 [3, 2, 5, 0]) 1000 10 = .ok (w', ret) ∧
      w'.trace = (sessionWorld 1 [3, 2, 5, 0]).trace ++ evs ∧
      w'.log = (sessionWorld 1 [3, 2, 5, 0]).log ++ lg ∧
      ((∀ h b l rc, Call.send h b l rc ∈ evs → 1 ≤ rc ∧ rc ≤ l) →
        (∀ (k : Nat) (b l rc : Int), (sendCalls evs)[k]? = some (b, l, rc) →
          b = 1000 + ((acceptedCounts evs).take k).sum ∧
          l = 10 - ((acceptedCounts evs).take k).sum ∧
          b - 1000 + l = 10 ∧ 0 < l ∧
          (progressLog lg)[k]? = some (l - rc, rc, b - 1000 + rc)) ∧
        (acceptedCounts evs).sum = 10 ∧
        ret = (acceptedCounts evs).sum ∧
        0 < (sendCalls evs).length ∧
        ((sendCalls evs).length : Int) ≤ 10) :=
  sslWrite_loop_progress scriptEngine sampleDefs (sessionWorld 1 [3, 2, 5, 0])
    { fd := 0, handle := 7, connected := 1 } 1000 10 rfl (by decide) (by decide) (by decide)
    (by decide)

/-- Scenario of C10 evaluated: length 10 accepted as 3, 2 and 5; the three `SSL_send`
calls are offered offsets 0, 3, 5 and lengths 10, 7, 5, and the loop logs remaining
lengths 7, 5, 0 with running totals 3, 5, 10. -/
theorem sslWrite_three_chunks :
    (sslWrite scriptEngine sampleDefs (sessionWorld 1 [3, 2, 5, 0]) 1000 10).toOption.map
        (fun p => (p.2, sendCalls p.1.trace, progressLog p.1.log)) =
      some (10, [(1000, 10, 3), (1003, 7, 2), (1005, 5, 5)],
        [(7, 3, 3), (5, 2, 5), (0, 5, 10)]) := by
  decide

/-! ## Handshake attempts over a sequence of calls -/

theorem negotiateSuccesses_le (t : List Call) : negotiateSuccesses t ≤ negotiateCalls t := by
  unfold negotiateSuccesses negotiateCalls
  apply List.countP_mono_left
  intro c _ h
  cases c <;> simp_all [Call.isNegotiateSuccess, Call.isNegotiate]

theorem negotiateCalls_append (a b : List Call) :
    negotiateCalls (a ++ b) = negotiateCalls a + negotiateCalls b := by
  simp [negotiateCalls, List.countP_append]

theorem negotiateSuccesses_append (a b : List Call) :
    negotiateSuccesses (a ++ b) = negotiateSuccesses a + negotiateSuccesses b := by
  simp [negotiateSuccesses, List.countP_append]

theorem negotiateCalls_sendEvents (handle : Int) (rcs : List Int) (buf len : Int) :
    negotiateCalls (sendEvents handle buf len rcs) = 0 := by
  unfold negotiateCalls
  rw [List.countP_eq_zero]
  intro c hc
  obtain ⟨b, l, rc, e, _⟩ := mem_sendEvents _ _ _ _ _ hc
  rw [e]
  simp [Call.isNegotiate]

theorem sslWriteConnected_negotiate {σ : Type} (E : Engine σ) (D : Defs) (w : World σ)
    (handle buf len : Int) (hw : 32 ≤ D.ssizeBits) (h0 : 0 < len)
    (hM : len < 2 ^ (D.ssizeBits - 1)) :
    ∃ (w' : World σ) (ret : Int) (evs : List Call),
      sslWriteConnected E D w handle buf len = .ok (w', ret) ∧
      w'.trace = w.trace ++ evs ∧ w'.ssl = w.ssl ∧ negotiateCalls evs = 0 := by
  obtain ⟨rcs, last, w', ret, hrun, _, hssl, _, _, _, _, hfin⟩ :=
    sslWriteConnected_spec E D w handle buf len hw h0 hM
  rcases hfin with ⟨_, _, _, h4⟩ | ⟨_, _, _, _, _, _, count, h6⟩
  · exact ⟨w', ret, _, hrun, h4, hssl, negotiateCalls_sendEvents _ _ _ _⟩
  · refine ⟨w', ret, _, hrun, by rw [h6, List.append_assoc], hssl, ?_⟩
    rw [negotiateCalls_append, negotiateCalls_sendEvents]
    by_cases hc : 0 < count <;>
      simp [negotiateCalls, hc, List.countP_cons, Call.isNegotiate]

theorem sslReadConnected_negotiate {σ : Type} (E : Engine σ) (D : Defs) (w : World σ)
    (handle buf len : Int) :
    ∃ evs : List Call,
      (sslReadConnected E D w handle buf len).1.trace = w.trace ++ evs ∧
      (sslReadConnected E D w handle buf len).1.ssl = w.ssl ∧ negotiateCalls evs = 0 := by
  obtain ⟨hssl, _, _, _, hneg, hpos⟩ := sslReadConnected_spec E D w handle buf len
  by_cases h : toInt32 (E.SSL_recv w.env handle buf (toInt32 len)).2.1 < 0
  · obtain ⟨_, h2, _, _⟩ := hneg h
    exact ⟨_, h2, hssl, by simp [negotiateCalls, List.countP_cons, Call.isNegotiate]⟩
  · obtain ⟨_, _, M, h3⟩ := hpos (by omega)
    refine ⟨_, h3, hssl, ?_⟩
    by_cases hm : 0 < M <;> simp [negotiateCalls, hm, List.countP_cons, Call.isNegotiate]

theorem step_connected {σ : Type} (E : Engine σ) (D : Defs) (w : World σ) (np : Nano)
    (op : Op) (hw : 32 ≤ D.ssizeBits) (hs : w.ssl = some np) (hc : np.connected ≠ 0)
    (hr : op.inRange D) :
    ∃ (w' : World σ) (ret : Int) (evs : List Call),
      step E D w op = .ok (w', ret) ∧ w'.trace = w.trace ++ evs ∧ w'.ssl = some np ∧
      negotiateCalls evs = 0 := by
  cases op with
  | read buf len =>
    obtain ⟨evs, e1, e2, e3⟩ := sslReadConnected_negotiate E D w np.handle buf len
    refine ⟨(sslReadConnected E D w np.handle buf len).1,
      (sslReadConnected E D w np.handle buf len).2, evs, ?_, e1, by rw [e2, hs], e3⟩
    simp only [step, sslRead, hs, if_neg hc]
  | write buf len =>
    by_cases h0 : len ≤ 0
    · exact ⟨w, -1, [], by simp [step, sslWrite, h0], by simp, hs, rfl⟩
    · have hlen : 0 < len := by omega
      obtain ⟨w', ret, evs, hrun, e1, e2, e3⟩ :=
        sslWriteConnected_negotiate E D w np.handle buf len hw hlen hr
      rw [← sslWrite_connected_eq E D w np buf len hs hc hlen] at hrun
      exact ⟨w', ret, evs, hrun, e1, by rw [e2, hs], e3⟩

theorem step_unconnected {σ : Type} (E : Engine σ) (D : Defs) (w : World σ) (np : Nano)
    (op : Op) (hw : 32 ≤ D.ssizeBits) (hs : w.ssl = some np) (hc : np.connected = 0)
    (hr : op.inRange D) (hop : op.admitted) :
    ∃ (w' : World σ) (ret : Int) (evs : List Call) (np' : Nano),
      step E D w op = .ok (w', ret) ∧ w'.trace = w.trace ++ evs ∧ w'.ssl = some np' ∧
      negotiateCalls evs = 1 ∧
      ((negotiateStatus E D w np < 0 ∧ np' = np ∧ ret = -1 ∧ negotiateSuccesses evs = 0) ∨
       (0 ≤ negotiateStatus E D w np ∧ np'.connected ≠ 0 ∧ negotiateSuccesses evs = 1)) := by
  obtain ⟨⟨f0, f1, htr⟩, _, _, hneg, hpos⟩ := nanoHandshake_spec E D w np hc
  by_cases hrc : negotiateStatus E D w np < 0
  · obtain ⟨_, hssl, _, _⟩ := hneg hrc
    refine ⟨_, _, _, np, step_failed_handshake E D w np op hs hc hop hrc, htr,
      by rw [hssl, hs], by simp [negotiateCalls, List.countP_cons, Call.isNegotiate],
      Or.inl ⟨hrc, rfl, rfl, ?_⟩⟩
    have : ¬ (0 ≤ negotiateStatus E D w np) := by omega
    simp [negotiateSuccesses, List.countP_cons, Call.isNegotiateSuccess, this]
  · have hrc0 : 0 ≤ negotiateStatus E D w np := by omega
    obtain ⟨h2, hssl, _, _⟩ := hpos hrc0
    have hpre1 : negotiateCalls [Call.getSessionFlags np.handle f0,
        Call.setSessionFlags np.handle f1,
        Call.negotiate np.handle (negotiateStatus E D w np)] = 1 := by
      simp [negotiateCalls, List.countP_cons, Call.isNegotiate]
    have hpre2 : negotiateSuccesses [Call.getSessionFlags np.handle f0,
        Call.setSessionFlags np.handle f1,
        Call.negotiate np.handle (negotiateStatus E D w np)] = 1 := by
      simp [negotiateSuccesses, List.countP_cons, Call.isNegotiateSuccess, hrc0]
    cases op with
    | read buf len =>
      obtain ⟨evs, e1, e2, e3⟩ :=
        sslReadConnected_negotiate E D (nanoHandshake E D w np).1 np.handle buf len
      have e4 : negotiateSuccesses evs = 0 := by
        have := negotiateSuccesses_le evs
        omega
      refine ⟨(sslReadConnected E D (nanoHandshake E D w np).1 np.handle buf len).1,
        (sslReadConnected E D (nanoHandshake E D w np).1 np.handle buf len).2,
        _, { np with connected := 1 }, ?_, by rw [e1, htr, List.append_assoc],
        by rw [e2, hssl], by rw [negotiateCalls_append, hpre1, e3],
        Or.inr ⟨hrc0, by simp, by rw [negotiateSuccesses_append, hpre2, e4]⟩⟩
      simp only [step, sslRead, hs, hc, if_true]
      rw [if_neg (by rw [h2]; decide)]
    | write buf len =>
      have hlen : 0 < len := hop
      obtain ⟨w', ret, evs, hrun, e1, e2, e3⟩ :=
        sslWriteConnected_negotiate E D (nanoHandshake E D w np).1 np.handle buf len hw hlen hr
      rw [← sslWrite_handshake_eq E D w np buf len hs hc hlen hrc0] at hrun
      have e4 : negotiateSuccesses evs = 0 := by
        have := negotiateSuccesses_le evs
        omega
      exact ⟨w', ret, _, { np with connected := 1 }, hrun, by rw [e1, htr, List.append_assoc],
        by rw [e2, hssl], by rw [negotiateCalls_append, hpre1, e3],
        Or.inr ⟨hrc0, by simp, by rw [negotiateSuccesses_append, hpre2, e4]⟩⟩

theorem step_not_admitted {σ : Type} (E : Engine σ) (D : Defs) (w : World σ) (op : Op)
    (hop : ¬ op.admitted) : step E D w op = .ok (w, -1) := by
  cases op with
  | read buf len => exact absurd trivial hop
  | write buf len =>
    have h0 : len ≤ 0 := not_lt.mp hop
    simp [step, sslWrite, h0]

theorem run_negotiations {σ : Type} (E : Engine σ) (D : Defs)
    (hw : 32 ≤ D.ssizeBits) (ops : List Op) :
    ∀ (w : World σ) (np : Nano), w.ssl = some np → (∀ op ∈ ops, op.inRange D) →
    ∃ (w' : World σ) (rets : List Int) (evs : List Call) (np' : Nano),
      run E D ops w = .ok (w', rets) ∧ rets.length = ops.length ∧
      w'.trace = w.trace ++ evs ∧ w'.ssl = some np' ∧
      negotiateCalls evs ≤ admittedCount ops ∧ negotiateCalls evs ≤ ops.length ∧
      negotiateSuccesses evs ≤ 1 ∧
      (np.connected ≠ 0 → np' = np ∧ negotiateCalls evs = 0) ∧
      (np'.connected = 0 → np' = np ∧ negotiateSuccesses evs = 0 ∧
        (∀ r ∈ rets, r = -1) ∧ negotiateCalls evs = admittedCount ops) ∧
      (np.connected = 0 → np'.connected ≠ 0 → negotiateSuccesses evs = 1) := by
  induction ops with
  | nil =>
    intro w np hs _
    refine ⟨w, [], [], np, rfl, rfl, by simp, hs, by simp [negotiateCalls],
      by simp [negotiateCalls], by simp [negotiateSuccesses], fun _ => ⟨rfl, rfl⟩,
      fun _ => ⟨rfl, rfl, by simp, rfl⟩, fun h1 h2 => absurd h1 h2⟩
  | cons op ops ih =>
    intro w np hs hops
    have hr : op.inRange D := hops op (List.mem_cons_self _ _)
    have hops' : ∀ o ∈ ops, o.inRange D := fun o ho => hops o (List.mem_cons_of_mem _ ho)
    have hlen : admittedCount ops ≤ ops.length := List.countP_le_length _
    by_cases hc : np.connected = 0
    · by_cases hop : op.admitted
      · have hcount : admittedCount (op :: ops) = admittedCount ops + 1 := by
          simp [admittedCount, List.countP_cons, hop]
        obtain ⟨w1, ret, evs1, np1, hstep, htr1, hssl1, hn1, hcase⟩ :=
          step_unconnected E D w np op hw hs hc hr hop
        obtain ⟨w2, rets, evs2, np2, hrun, hl, htr2, hssl2, i1, i2, i3, i4, i5, i6⟩ :=
          ih w1 np1 hssl1 hops'
        refine ⟨w2, ret :: rets, evs1 ++ evs2, np2, by simp [run, hstep, hrun], by simp [hl],
          by rw [htr2, htr1, List.append_assoc], hssl2, ?_, ?_, ?_, fun h => absurd hc h, ?_, ?_⟩
        · rw [negotiateCalls_append, hcount]; omega
        · rw [negotiateCalls_append, List.length_cons]; omega
        · rw [negotiateSuccesses_append]
          rcases hcase with ⟨_, _, _, h4⟩ | ⟨_, h2, h3⟩
          · omega
          · have := (i4 h2).2
            have := negotiateSuccesses_le evs2
            omega
        · intro hc2
          obtain ⟨j1, j2, j3, j4⟩ := i5 hc2
          rcases hcase with ⟨_, h2, h3, h4⟩ | ⟨_, h2, _⟩
          · refine ⟨by rw [j1, h2], by rw [negotiateSuccesses_append]; omega, ?_,
              by rw [negotiateCalls_append, hcount]; omega⟩
            intro r hr
            rcases List.mem_cons.mp hr with e | e
            · rw [e, h3]
            · exact j3 r e
          · rw [j1] at hc2
            exact absurd hc2 h2
        · intro _ hc2
          rw [negotiateSuccesses_append]
          rcases hcase with ⟨_, h2, _, h4⟩ | ⟨_, h2, h3⟩
          · have := i6 (by rw [h2]; exact hc) hc2
            omega
          · have := (i4 h2).2
            have := negotiateSuccesses_le evs2
            omega
      · have hcount : admittedCount (op :: ops) = admittedCount ops := by
          simp [admittedCount, List.countP_cons, hop]
        have hstep := step_not_admitted E D w op hop
        obtain ⟨w2, rets, evs2, np2, hrun, hl, htr2, hssl2, i1, i2, i3, i4, i5, i6⟩ :=
          ih w np hs hops'
        refine ⟨w2, -1 :: rets, evs2, np2, by simp [run, hstep, hrun], by simp [hl],
          htr2, hssl2, by rw [hcount]; exact i1, by rw [List.length_cons]; omega, i3,
          fun h => absurd hc h, ?_, i6⟩
        intro hc2
        obtain ⟨j1, j2, j3, j4⟩ := i5 hc2
        refine ⟨j1, j2, ?_, by rw [hcount]; exact j4⟩
        intro r hr
        rcases List.mem_cons.mp hr with e | e
        · exact e
        · exact j3 r e
    · obtain ⟨w1, ret, evs1, hstep, htr1, hssl1, hn1⟩ :=
        step_connected E D w np op hw hs hc hr
      obtain ⟨w2, rets, evs2, np2, hrun, hl, htr2, hssl2, i1, i2, i3, i4, i5, i6⟩ :=
        ih w1 np hssl1 hops'
      obtain ⟨k1, k2⟩ := i4 hc
      have hs1 := negotiateSuccesses_le evs1
      have hs2 := negotiateSuccesses_le evs2
      refine ⟨w2, ret :: rets, evs1 ++ evs2, np2, by simp [run, hstep, hrun], by simp [hl],
        by rw [htr2, htr1, List.append_assoc], hssl2, ?_, ?_, ?_, fun _ => ⟨k1, ?_⟩, ?_,
        fun h => absurd h hc⟩
      · rw [negotiateCalls_append]; omega
      · rw [negotiateCalls_append]; omega
      · rw [negotiateSuccesses_append]; omega
      · rw [negotiateCalls_append]; omega
      · intro hc2
        rw [k1] at hc2
        exact absurd hc2 hc

/-- C2 (amended): for every session, whatever the engine answers.
One call: `sslRead` or `sslWrite` returns and calls `SSL_negotiateConnection` at most
once; not at all on a session that is already connected (nor for an `sslWrite` with
`len <= 0`, which returns -1), and exactly once on an unconnected session. If that
negotiation answers a negative status the call returns -1 and the session is left as it
was, unconnected; if it answers a non-negative status the session becomes connected.
The next call: after a call whose negotiation failed, the following call on the session
calls `SSL_negotiateConnection` again, exactly once; it returns -1 with the session
still unconnected if this negotiation fails too, and connects the session otherwise.
A sequence of calls: it returns, `SSL_negotiateConnection` is called at most once per
call and answers a non-negative status at most once; a connected session is never
negotiated again; if the session is still unconnected at the end, every call returned
-1 and each call that got past its argument check called `SSL_negotiateConnection`
once; if the session was unconnected and is connected at the end, exactly one
negotiation succeeded. -/
theorem handshake_attempts_over_calls {σ : Type} (E : Engine σ) (D : Defs) (w : World σ)
    (np : Nano) (hw : 32 ≤ D.ssizeBits) (hs : w.ssl = some np) :
    (∀ op : Op, op.inRange D →
      ∃ (w' : World σ) (ret : Int) (evs : List Call) (np' : Nano),
        step E D w op = .ok (w', ret) ∧ w'.trace = w.trace ++ evs ∧ w'.ssl = some np' ∧
        negotiateCalls evs ≤ 1 ∧
        (np.connected ≠ 0 → np' = np ∧ negotiateCalls evs = 0) ∧
        (np.connected = 0 → ¬ op.admitted → np' = np ∧ negotiateCalls evs = 0 ∧ ret = -1) ∧
        (np.connected = 0 → op.admitted → negotiateCalls evs = 1 ∧
          (negotiateStatus E D w np < 0 →
            np' = np ∧ ret = -1 ∧ negotiateSuccesses evs = 0) ∧
          (0 ≤ negotiateStatus E D w np →
            np'.connected ≠ 0 ∧ negotiateSuccesses evs = 1))) ∧
    (∀ op1 op2 : Op, op1.admitted → op2.admitted → op2.inRange D →
      np.connected = 0 → negotiateStatus E D w np < 0 →
      ∃ (w1 w2 : World σ) (ret2 : Int) (evs2 : List Call) (np2 : Nano),
        step E D w op1 = .ok (w1, -1) ∧ w1.ssl = some np ∧
        step E D w1 op2 = .ok (w2, ret2) ∧ w2.trace = w1.trace ++ evs2 ∧
        w2.ssl = some np2 ∧ negotiateCalls evs2 = 1 ∧
        (negotiateStatus E D w1 np < 0 → np2 = np ∧ ret2 = -1) ∧
        (0 ≤ negotiateStatus E D w1 np → np2.connected ≠ 0)) ∧
    (∀ ops : List Op, (∀ op ∈ ops, op.inRange D) →
      ∃ (w' : World σ) (rets : List Int) (evs : List Call) (np' : Nano),
        run E D ops w = .ok (w', rets) ∧ rets.length = ops.length ∧
        w'.trace = w.trace ++ evs ∧ w'.ssl = some np' ∧
        negotiateCalls evs ≤ admittedCount ops ∧ negotiateCalls evs ≤ ops.length ∧
        negotiateSuccesses evs ≤ 1 ∧
        (np.connected ≠ 0 → np' = np ∧ negotiateCalls evs = 0) ∧
        (np'.connected = 0 → np' = np ∧ negotiateSuccesses evs = 0 ∧
          (∀ r ∈ rets, r = -1) ∧ negotiateCalls evs = admittedCount ops) ∧
        (np.connected = 0 → np'.connected ≠ 0 → negotiateSuccesses evs = 1)) := by
  refine ⟨?_, ?_, fun ops hops => run_negotiations E D hw ops w np hs hops⟩
  · intro op hr
    by_cases hc : np.connected = 0
    · by_cases hop : op.admitted
      · obtain ⟨w', ret, evs, np', hstep, htr, hssl, hn, hcase⟩ :=
          step_unconnected E D w np op hw hs hc hr hop
        refine ⟨w', ret, evs, np', hstep, htr, hssl, by omega, fun h => absurd hc h,
          fun _ h => absurd hop h, fun _ _ => ⟨hn, ?_, ?_⟩⟩
        · intro hneg
          rcases hcase with ⟨_, h2, h3, h4⟩ | ⟨h1, _, _⟩
          · exact ⟨h2, h3, h4⟩
          · omega
        · intro hpos
          rcases hcase with ⟨h1, _, _, _⟩ | ⟨_, h2, h3⟩
          · omega
          · exact ⟨h2, h3⟩
      · exact ⟨w, -1, [], np, step_not_admitted E D w op hop, by simp, hs,
          by simp [negotiateCalls], fun h => absurd hc h, fun _ _ => ⟨rfl, rfl, rfl⟩,
          fun _ h => absurd h hop⟩
    · obtain ⟨w', ret, evs, hstep, htr, hssl, hn⟩ := step_connected E D w np op hw hs hc hr
      exact ⟨w', ret, evs, np, hstep, htr, hssl, by omega, fun _ => ⟨rfl, hn⟩,
        fun h => absurd h hc, fun h => absurd h hc⟩
  · intro op1 op2 hop1 hop2 hr2 hc hneg
    obtain ⟨_, _, _, hfail, _⟩ := nanoHandshake_spec E D w np hc
    obtain ⟨_, hssl1, _, _⟩ := hfail hneg
    have hs1 : (nanoHandshake E D w np).1.ssl = some np := by rw [hssl1, hs]
    obtain ⟨w2, ret2, evs2, np2, hstep2, htr2, hssl2, hn2, hcase⟩ :=
      step_unconnected E D (nanoHandshake E D w np).1 np op2 hw hs1 hc hr2 hop2
    refine ⟨(nanoHandshake E D w np).1, w2, ret2, evs2, np2,
      step_failed_handshake E D w np op1 hs hc hop1 hneg, hs1, hstep2, htr2, hssl2, hn2,
      ?_, ?_⟩
    · intro h
      rcases hcase with ⟨_, h2, h3, _⟩ | ⟨h1, _, _⟩
      · exact ⟨h2, h3⟩
      · omega
    · intro h
      rcases hcase with ⟨h1, _, _, _⟩ | ⟨_, h2, _⟩
      · omega
      · exact h2

theorem handshake_attempts_over_calls_witness :
    (sessionWorld 0 [-6040, 0, 0, 5, 0]).ssl = some { fd := 0, handle := 7, connected := 0 } ∧
    negotiateStatus scriptEngine sampleDefs (sessionWorld 0 [-6040, 0, 0, 5, 0])
      { fd := 0, handle := 7, connected := 0 } < 0 ∧
    (∃ (w1 w2 : World (List Int)) (ret2 : Int) (evs2 : List Call) (np2 : Nano),
      step scriptEngine sampleDefs (sessionWorld 0 [-6040, 0, 0, 5, 0]) (Op.write 1000 10) =
        .ok (w1, -1) ∧
      w1.ssl = some { fd := 0, handle := 7, connected := 0 } ∧
      step scriptEngine sampleDefs w1 (Op.read 2000 8) = .ok (w2, ret2) ∧
      w2.trace = w1.trace ++ evs2 ∧ w2.ssl = some np2 ∧ negotiateCalls evs2 = 1 ∧
      (negotiateStatus scriptEngine sampleDefs w1 { fd := 0, handle := 7, connected := 0 } < 0 →
        np2 = { fd := 0, handle := 7, connected := 0 } ∧ ret2 = -1) ∧
      (0 ≤ negotiateStatus scriptEngine sampleDefs w1 { fd := 0, handle := 7, connected := 0 } →
        np2.connected ≠ 0)) ∧
    (∃ (w' : World (List Int)) (rets : List Int) (evs : List Call) (np' : Nano),
      run scriptEngine sampleDefs [Op.write 1000 10, Op.read 2000 8]
        (sessionWorld 0 [-6040, 0, 0, 5, 0]) = .ok (w', rets) ∧
      rets.length = [Op.write 1000 10, Op.read 2000 8].length ∧
      w'.trace = (sessionWorld 0 [-6040, 0, 0, 5, 0]).trace ++ evs ∧ w'.ssl = some np' ∧
      negotiateCalls evs ≤ admittedCount [Op.write 1000 10, Op.read 2000 8] ∧
      negotiateCalls evs ≤ [Op.write 1000 10, Op.read 2000 8].length ∧
      negotiateSuccesses evs ≤ 1 ∧
      ((0 : Int) ≠ 0 → np' = { fd := 0, handle := 7, connected := 0 } ∧
        negotiateCalls evs = 0) ∧
      (np'.connected = 0 → np' = { fd := 0, handle := 7, connected := 0 } ∧
        negotiateSuccesses evs = 0 ∧ (∀ r ∈ rets, r = -1) ∧
        negotiateCalls evs = admittedCount [Op.write 1000 10, Op.read 2000 8]) ∧
      ((0 : Int) = 0 → np'.connected ≠ 0 → negotiateSuccesses evs = 1)) :=
  ⟨rfl, by decide,
    (handshake_attempts_over_calls scriptEngine sampleDefs (sessionWorld 0 [-6040, 0, 0, 5, 0])
      { fd := 0, handle := 7, connected := 0 } (by decide) rfl).2.1
      (Op.write 1000 10) (Op.read 2000 8) (by simp [Op.admitted]) (by simp [Op.admitted])
      (by simp [Op.inRange]) rfl (by decide),
    (handshake_attempts_over_calls scriptEngine sampleDefs (sessionWorld 0 [-6040, 0, 0, 5, 0])
      { fd := 0, handle := 7, connected := 0 } (by decide) rfl).2.2
      [Op.write 1000 10, Op.read 2000 8] (by simp [Op.inRange]; decide)⟩

/-- C2, the claim as stated fails: a session whose first call (an `sslWrite`) meets a
failed negotiation (status -6040) is negotiated again by the next call (an `sslRead`);
that negotiation succeeds, the session becomes connected and the read returns 5 bytes.
`SSL_negotiateConnection` is called twice and the second call does not return -1. -/
theorem handshake_retried_after_failure :
    (run scriptEngine sampleDefs [Op.write 1000 10, Op.read 2000 8]
        (sessionWorld 0 [-6040, 0, 0, 5, 0])).toOption.map
        (fun p => (p.2, negotiateCalls p.1.trace, p.1.ssl, p.1.trace)) =
      some ([-1, 5], 2, some { fd := 0, handle := 7, connected := 1 },
        [Call.getSessionFlags 7 0, Call.setSessionFlags 7 16, Call.negotiate 7 (-6040),
         Call.getSessionFlags 7 0, Call.setSessionFlags 7 16, Call.negotiate 7 0,
         Call.recv 7 2000 8 0 5, Call.recvPending 7 0]) := by
  decide

/-- A retried call can still fail for another reason: negotiation fails for the first
call (status -6040) and succeeds for the second, whose `SSL_recv` then answers -5806;
both calls return -1, with two negotiations, one of them successful, and the session
connected at the end. -/
theorem retried_call_fails_on_recv :
    (run scriptEngine sampleDefs [Op.write 1000 10, Op.read 2000 8]
        (sessionWorld 0 [-6040, 0, -5806, 5, 0])).toOption.map
        (fun p => (p.2, negotiateCalls p.1.trace, negotiateSuccesses p.1.trace, p.1.ssl)) =
      some ([-1, -1], 2, 1, some { fd := 0, handle := 7, connected := 1 }) := by
  decide

/-! ## sslFree, sslUpgrade, sslOpen -/

theorem sslFree_ssl {σ : Type} (E : Engine σ) (w : World σ) : (sslFree E w).ssl = none := by
  unfold sslFree
  cases h : w.ssl with
  | none => simpa using h
  | some np => simp

theorem sslFree_of_none {σ : Type} (E : Engine σ) (w : World σ) (h : w.ssl = none) :
    sslFree E w = w := by
  unfold sslFree
  rw [h]

/-- C6: for every connection state, `sslFree` called twice in a row leaves the same
state as `sslFree` called once, with `wp->ssl` cleared; the second call adds nothing to
the list of calls (no engine call, no `wfree`), and over the two calls
`SSL_closeConnection` is called at most once, and only on the handle the session held. -/
theorem sslFree_idempotent {σ : Type} (E : Engine σ) (w : World σ) :
    sslFree E (sslFree E w) = sslFree E w ∧
    (sslFree E w).ssl = none ∧
    (sslFree E (sslFree E w)).trace = (sslFree E w).trace ∧
    closeCalls (sslFree E (sslFree E w)).trace ≤ closeCalls w.trace + 1 ∧
    (∀ np, w.ssl = some np → np.handle ≠ 0 →
      (sslFree E (sslFree E w)).trace =
        w.trace ++ [Call.closeConnection np.handle, Call.wfree]) := by
  have h1 : sslFree E (sslFree E w) = sslFree E w := sslFree_of_none E _ (sslFree_ssl E w)
  refine ⟨h1, sslFree_ssl E w, by rw [h1], ?_, ?_⟩
  · rw [h1]
    unfold sslFree
    cases h : w.ssl with
    | none => simp
    | some np =>
      by_cases hh : np.handle = 0 <;>
        simp [hh, closeCalls, List.countP_append, List.countP_cons]
  · intro np hs hh
    rw [h1]
    unfold sslFree
    simp [hs, hh]

/-- Scenario of C6 evaluated: a session holding handle 7 is freed twice; the call list
shows one `SSL_closeConnection` and one `wfree`. -/
theorem sslFree_twice_closes_once :
    (sslFree scriptEngine (sslFree scriptEngine (sessionWorld 1 []))).trace =
        [Call.closeConnection 7, Call.wfree] ∧
    (sslFree scriptEngine (sslFree scriptEngine (sessionWorld 1 []))).ssl = none := by
  decide

/-- C8, the code at a failing upgrade: `SSL_acceptConnection` answers -1, `sslUpgrade`
returns -1 and leaves a session whose handle field is -1 (not zero); the `sslFree` that
follows calls `SSL_closeConnection` on -1. -/
theorem failed_upgrade_handle_is_closed :
    (sslUpgrade scriptEngine (freshWorld [-1])).2 = -1 ∧
    (sslUpgrade scriptEngine (freshWorld [-1])).1.ssl =
      some { fd := 0, handle := -1, connected := 0 } ∧
    (sslFree scriptEngine (sslUpgrade scriptEngine (freshWorld [-1])).1).trace =
      [Call.walloc true, Call.acceptConnection 3 (-1), Call.closeConnection (-1),
       Call.wfree] := by
  decide

/-- The other half of C8 at an upgrade that succeeds with handle 0: `sslUpgrade` returns
0, the handle field is zero, and `sslFree` does not call `SSL_closeConnection`. -/
theorem upgrade_with_handle_zero_is_not_closed :
    (sslUpgrade scriptEngine (freshWorld [0])).2 = 0 ∧
    (sslUpgrade scriptEngine (freshWorld [0])).1.ssl =
      some { fd := 0, handle := 0, connected := 0 } ∧
    (sslFree scriptEngine (sslUpgrade scriptEngine (freshWorld [0])).1).trace =
      [Call.walloc true, Call.acceptConnection 3 0, Call.wfree] := by
  decide

/-- What does hold of `sslUpgrade` and `sslFree`: an upgrade that returns 0 stores the
non-negative handle it got, and `sslFree` calls `SSL_closeConnection` exactly when the
stored handle field is not zero. -/
theorem upgrade_and_free_handle {σ : Type} (E : Engine σ) (w : World σ) :
    ((sslUpgrade E w).2 = 0 →
      ∃ h, 0 ≤ h ∧ (sslUpgrade E w).1.ssl = some { fd := 0, handle := h, connected := 0 }) ∧
    (∀ np, w.ssl = some np →
      (sslFree E w).trace = w.trace ++
        (if np.handle ≠ 0 then [Call.closeConnection np.handle, Call.wfree]
         else [Call.wfree])) := by
  constructor
  · intro h
    unfold sslUpgrade at h ⊢
    by_cases ha : (E.walloc w.env).2 = false
    · simp [ha] at h
    · by_cases hneg : toInt32 (E.SSL_acceptConnection (E.walloc w.env).1
          (E.socketGetHandle (E.walloc w.env).1 w.sid)).2 < 0
      · simp [ha, hneg] at h
      · simp only [ha, hneg, if_false]
        exact ⟨_, by omega, rfl⟩
  · intro np hs
    unfold sslFree
    by_cases hh : np.handle = 0 <;> simp [hs, hh]

/-- C7, the code at a key-file read failure: with a certificate and a key configured,
every primitive succeeding except the read of the key file (-1), `sslOpen` goes on to
`CA_MGMT_convertKeyPEM` and `SSL_initServerCert` and returns 0. -/
theorem sslOpen_key_read_failure_returns_zero :
    sslOpen sampleDefs
      { MOCANA_initMocana := 0, SSL_init := 0, MOCANA_readFile_certificate := 0,
        CA_MGMT_decodeCertificate := 0, MOCANA_readFile_key := -1,
        CA_MGMT_convertKeyPEM := 0, SSL_initServerCert := 0 } =
      { rc := 0,
        calls := [OpenCall.MOCANA_initMocana, OpenCall.MOCANA_initLog, OpenCall.SSL_init,
          OpenCall.MOCANA_readFile "self.crt", OpenCall.CA_MGMT_decodeCertificate,
          OpenCall.MOCANA_freeReadFile, OpenCall.MOCANA_readFile "self.key",
          OpenCall.CA_MGMT_freeCertificate_cert, OpenCall.CA_MGMT_convertKeyPEM,
          OpenCall.MOCANA_freeReadFile, OpenCall.SSL_initServerCert,
          OpenCall.SSL_sslSettings],
        errors := [("NanoSSL: Unable to read key file %s", ["self.key"])],
        timeouts := some (15000, 300000) } := by
  decide

theorem sslOpenServerCert_rc (D : Defs) (o : OpenEnv) (calls : List OpenCall)
    (errors : List (String × List String)) :
    (toInt32 o.SSL_initServerCert ≠ 0 → (sslOpenServerCert D o calls errors).rc = -1) ∧
    ((sslOpenServerCert D o calls errors).rc = 0 ∨
      (sslOpenServerCert D o calls errors).rc = -1) := by
  unfold sslOpenServerCert
  by_cases h : toInt32 o.SSL_initServerCert = 0 <;> simp [h]

theorem sslOpenKey_rc (D : Defs) (o : OpenEnv) (calls : List OpenCall)
    (errors : List (String × List String)) :
    (D.ME_GOAHEAD_KEY ≠ "" → toInt32 o.CA_MGMT_convertKeyPEM < 0 →
      (sslOpenKey D o calls errors).rc = -1) ∧
    (toInt32 o.SSL_initServerCert ≠ 0 → (sslOpenKey D o calls errors).rc = -1) ∧
    ((sslOpenKey D o calls errors).rc = 0 ∨ (sslOpenKey D o calls errors).rc = -1) := by
  unfold sslOpenKey
  by_cases hk : D.ME_GOAHEAD_KEY = ""
  · simp only [hk, ne_eq, not_true_eq_false, if_false]
    exact ⟨fun h => h.elim, (sslOpenServerCert_rc D o _ _).1,
      (sslOpenServerCert_rc D o _ _).2⟩
  · by_cases hc : toInt32 o.CA_MGMT_convertKeyPEM < 0
    · simp [hk, hc]
    · simp only [ne_eq, hk, not_false_eq_true, if_true, hc, if_false]
      exact ⟨fun _ h => h.elim, (sslOpenServerCert_rc D o _ _).1,
        (sslOpenServerCert_rc D o _ _).2⟩

/-- The failures `sslOpen` does treat as fatal: engine initialisation, `SSL_init`, the
read or the decoding of a configured certificate, the PEM conversion of a configured
key, and the installation of the server certificate each make it return -1; and it
returns nothing but 0 or -1. -/
theorem sslOpen_fatal_errors (D : Defs) (o : OpenEnv) :
    (toInt32 o.MOCANA_initMocana < 0 → (sslOpen D o).rc = -1) ∧
    (toInt32 o.SSL_init < 0 → (sslOpen D o).rc = -1) ∧
    (D.ME_GOAHEAD_CERTIFICATE ≠ "" → toInt32 o.MOCANA_readFile_certificate < 0 →
      (sslOpen D o).rc = -1) ∧
    (D.ME_GOAHEAD_CERTIFICATE ≠ "" → toInt32 o.CA_MGMT_decodeCertificate < 0 →
      (sslOpen D o).rc = -1) ∧
    (D.ME_GOAHEAD_KEY ≠ "" → toInt32 o.CA_MGMT_convertKeyPEM < 0 → (sslOpen D o).rc = -1) ∧
    (toInt32 o.SSL_initServerCert ≠ 0 → (sslOpen D o).rc = -1) ∧
    ((sslOpen D o).rc = 0 ∨ (sslOpen D o).rc = -1) := by
  unfold sslOpen
  by_cases h1 : toInt32 o.MOCANA_initMocana < 0
  · simp [h1]
  by_cases h2 : toInt32 o.SSL_init < 0
  · simp [h1, h2]
  by_cases hcert : D.ME_GOAHEAD_CERTIFICATE = ""
  · simp only [h1, h2, if_false, hcert, ne_eq, not_true_eq_false]
    obtain ⟨k1, k2, k3⟩ := sslOpenKey_rc D o
      [OpenCall.MOCANA_initMocana, OpenCall.MOCANA_initLog, OpenCall.SSL_init] []
    exact ⟨fun h => h.elim, fun h => h.elim, fun h => h.elim,
      fun h => h.elim, k1, k2, k3⟩
  by_cases h3 : toInt32 o.MOCANA_readFile_certificate < 0
  · simp [h1, h2, hcert, h3]
  by_cases h4 : toInt32 o.CA_MGMT_decodeCertificate < 0
  · simp [h1, h2, hcert, h3, h4]
  simp only [h1, h2, if_false, hcert, ne_eq, not_false_eq_true, if_true, h3, h4]
  obtain ⟨k1, k2, k3⟩ := sslOpenKey_rc D o
    ([OpenCall.MOCANA_initMocana, OpenCall.MOCANA_initLog, OpenCall.SSL_init] ++
      [OpenCall.MOCANA_readFile D.ME_GOAHEAD_CERTIFICATE, OpenCall.CA_MGMT_decodeCertificate,
        OpenCall.MOCANA_freeReadFile]) []
  exact ⟨fun h => h.elim, fun h => h.elim, fun _ h => h.elim,
    fun _ h => h.elim, k1, k2, k3⟩

end NanoSSL
